import Mathlib

/-!
Verification of the meaupdater core (apt parsing, kernel enumeration and
removal planning, GRUB entry synthesis, driver detection).

Rust strings are shallowly embedded as `List Char`; every string operation
used by the sources (`split`, `split_whitespace`, `lines`, `trim`,
`starts_with`, `contains`, `to_lowercase`, `replace`, `strip_prefix`,
`trim_end_matches`, `parse::<i32>`, `parse::<u64>`, `find`/`rfind`) is
reproduced below with Rust semantics (documented next to each definition).
External commands are modelled by passing their textual output (or their
boolean outcome) as explicit parameters, so every function of the source
becomes a pure function of the system state it observes.
-/

set_option maxHeartbeats 1000000

namespace Meaupdater

/-- Rust `&str` modelled as a list of characters (ASCII inputs; Rust's byte
indices coincide with character indices on the inputs considered). -/
abbrev Str := List Char

/-- Rust `char::is_whitespace` restricted to the whitespace characters that
occur in command output (space, tab, CR, LF); `Char.isWhitespace` matches. -/
def isWs (c : Char) : Bool := c.isWhitespace

/-- Rust `str::split(p)`: splits at every separator character, keeping empty
pieces; the result is always non-empty (`"".split(p) == [""]`). -/
def splitOnP (p : Char → Bool) : Str → List Str
  | [] => [[]]
  | c :: rest =>
    if p c then [] :: splitOnP p rest
    else
      match splitOnP p rest with
      | [] => [[c]]
      | t :: ts => (c :: t) :: ts

/-- Rust `str::split(sep)` for a single separator character. -/
def splitOnChar (sep : Char) (s : Str) : List Str := splitOnP (fun c => c = sep) s

/-- Rust `str::split_whitespace`: like split on whitespace but empty pieces
are dropped. -/
def splitWs (s : Str) : List Str := (splitOnP isWs s).filter (fun t => t ≠ [])

/-- first element of a split result (`split(..).next().unwrap_or(..)`);
`splitOnP` never returns `[]`, so the default is irrelevant. -/
def headI (l : List Str) : Str := l.headD []

/-- drop one trailing carriage return (the `\r\n` case of Rust `str::lines`). -/
def stripTrailCr (l : Str) : Str :=
  match l.reverse with
  | '\r' :: rest => rest.reverse
  | _ => l

/-- Rust `str::lines`: split on `'\n'`; every piece except the last was
followed by a `'\n'` and gets a trailing `'\r'` stripped; a final empty piece
(input ended in `'\n'`) is dropped; `"".lines()` is empty. -/
def rustLines (s : Str) : List Str :=
  match (splitOnChar '\n' s).reverse with
  | [] => []
  | last :: revInit =>
    if last = [] then (revInit.reverse).map stripTrailCr
    else (revInit.reverse).map stripTrailCr ++ [last]

/-- Rust `str::trim`. -/
def trimStr (s : Str) : Str :=
  ((s.dropWhile isWs).reverse.dropWhile isWs).reverse

/-- Rust `str::trim_end_matches(c)`: removes all trailing occurrences. -/
def trimEndMatches (c : Char) (s : Str) : Str :=
  (s.reverse.dropWhile (fun d => d = c)).reverse

/-- Rust `str::contains(pat)` for a substring pattern: some contiguous run of
`s` equals `pat`. -/
def containsSub (s pat : Str) : Bool :=
  match s with
  | [] => pat.isEmpty
  | _ :: rest => pat.isPrefixOf s || containsSub rest pat

/-- Rust `str::to_lowercase` restricted to ASCII (all scrutinised markers are
ASCII; `Char.toLower` lowercases exactly the ASCII uppercase letters). -/
def toLowerStr (s : Str) : Str := s.map Char.toLower

/-- Rust `str::replace(pat, rep)`: replaces non-overlapping occurrences left
to right (all patterns used by the source are non-empty).  The extra `Nat`
argument of the worker is recursion fuel — every step consumes at least one
character, so `s.length` always suffices; the fuel keeps the recursion
structural (kernel-reducible). -/
def replaceSubFuel (pat rep : Str) : Nat → Str → Str
  | _, [] => []
  | 0, s => s
  | n + 1, c :: rest =>
    if pat ≠ [] ∧ pat.isPrefixOf (c :: rest) then
      rep ++ replaceSubFuel pat rep n (rest.drop (pat.length - 1))
    else
      c :: replaceSubFuel pat rep n rest

def replaceSub (s pat rep : Str) : Str := replaceSubFuel pat rep s.length s

/-- value of a non-empty all-digit string, `none` otherwise. -/
def digitsToNat? (s : Str) : Option Nat :=
  if s ≠ [] ∧ s.all Char.isDigit then
    some (s.foldl (fun acc c => acc * 10 + (c.toNat - '0'.toNat)) 0)
  else none

/-- Rust `str::parse::<i32>()`: optional sign, at least one digit, result in
the `i32` range. -/
def parseI32? (s : Str) : Option Int :=
  let signed : Option Int :=
    match s with
    | '+' :: rest => (digitsToNat? rest).map Int.ofNat
    | '-' :: rest => (digitsToNat? rest).map (fun n => -(Int.ofNat n))
    | _ => (digitsToNat? s).map Int.ofNat
  match signed with
  | some v => if -(2 ^ 31) ≤ v ∧ v ≤ 2 ^ 31 - 1 then some v else none
  | none => none

/-- Rust `str::parse::<u64>()`: optional `'+'`, at least one digit, result in
the `u64` range. -/
def parseU64? (s : Str) : Option Nat :=
  let un : Option Nat :=
    match s with
    | '+' :: rest => digitsToNat? rest
    | _ => digitsToNat? s
  match un with
  | some v => if v ≤ 2 ^ 64 - 1 then some v else none
  | none => none

/-- Rust `i32::cmp` (and the `cmp` used on string slices, below). -/
def intCmp (a b : Int) : Ordering :=
  if a < b then .lt else if b < a then .gt else .eq

/-- Rust `str::cmp`: lexicographic on the character sequence (byte order and
character order agree on ASCII). -/
def lexCmp : Str → Str → Ordering
  | [], [] => .eq
  | [], _ :: _ => .lt
  | _ :: _, [] => .gt
  | a :: as', b :: bs' =>
    match intCmp a.toNat b.toNat with
    | .eq => lexCmp as' bs'
    | o => o

/-- Rust `str::find(c)`: index of the first occurrence of a character. -/
def strFind (c : Char) (s : Str) : Option Nat := s.indexOf? c

/-- Rust `str::rfind(c)`: index of the last occurrence of a character. -/
def strRfind (c : Char) (s : Str) : Option Nat :=
  match (s.reverse).indexOf? c with
  | some i => some (s.length - 1 - i)
  | none => none

/-- Rust slice `s[i..j]` (empty when `j ≤ i`; Rust panics on a reversed
range, which no claim exercises — the one reachable case, a `submenu`/
`menuentry` line holding exactly one quote character, yields `i = j + 1`
in the source and is modelled as the empty title). -/
def sliceStr (s : Str) (i j : Nat) : Str := (s.take j).drop i

/-- association list standing in for `HashMap<String, String>`:
`insert` overwrites the existing binding, like `HashMap::insert`. -/
abbrev AList := List (Str × Str)

def alistHasKey (m : AList) (k : Str) : Bool := m.any (fun p => p.1 = k)

def alistGet? (m : AList) (k : Str) : Option Str :=
  match m.find? (fun p => p.1 = k) with
  | some p => some p.2
  | none => none

def alistInsert (m : AList) (k v : Str) : AList :=
  match m with
  | [] => [(k, v)]
  | q :: rest => if q.1 = k then (k, v) :: rest else q :: alistInsert rest k v

/-- own enumeration (`enumerate` in the Rust loops), recursion-friendly. -/
def enumFrom {α : Type} (i : Nat) : List α → List (Nat × α)
  | [] => []
  | x :: xs => (i, x) :: enumFrom (i + 1) xs

/-! ## src/apt.rs and src/kernel_manager.rs: `format_size`

The Rust function divides an `f64` by 1024 while `size >= 1024.0` (at most 3
times) and prints with `{:.0}`/`{:.1}`.  Division by 1024 is exact in `f64`
and the loop thresholds (`1024^k ≤ 2^30`) are far below the 2^53 rounding
limit, so the iteration count is the exact integer computation below; the
one-decimal rendering is modelled by exact rational rounding half-to-even
(what Rust's formatter does on the exactly-represented quotients).  No claim
depends on the rendered digits. -/

def natToStr (n : Nat) : Str := Nat.toDigits 10 n

/-- number of `size /= 1024.0` steps performed by `format_size`'s loop. -/
def sizeUnitIdx (bytes : Nat) : Nat :=
  if bytes ≥ 1024 ^ 3 then 3
  else if bytes ≥ 1024 ^ 2 then 2
  else if bytes ≥ 1024 then 1
  else 0

/-- `num/den` rounded to one decimal place, ties to even, rendered `"i.f"`. -/
def fmtOneDecimal (num den : Nat) : Str :=
  let t := num * 10 / den
  let r := num * 10 % den
  let tenths :=
    if 2 * r > den then t + 1
    else if 2 * r < den then t
    else if t % 2 = 0 then t else t + 1
  natToStr (tenths / 10) ++ ['.'] ++ natToStr (tenths % 10)

def sizeUnits : List Str := ["B", "KB", "MB", "GB"].map (fun s => s.data)

/-- `format_size` (src/apt.rs:9-24, duplicated at src/kernel_manager.rs:426-441). -/
def format_size (bytes : Nat) : Str :=
  let k := sizeUnitIdx bytes
  if k = 0 then natToStr bytes ++ [' '] ++ (sizeUnits.getD 0 [])
  else fmtOneDecimal bytes (1024 ^ k) ++ [' '] ++ (sizeUnits.getD k [])

/-! ## src/model.rs -/

inductive UpdateType : Type
  | Security
  | Software
  | Kernel
deriving DecidableEq

structure PackageUpdate : Type where
  name : Str
  current_version : Str
  new_version : Str
  update_type : UpdateType
  size : Str
deriving DecidableEq

/-! ## src/apt.rs: update classification -/

/-- keyword list of `is_kernel_package` (src/apt.rs:66-80). -/
def kernel_keywords : List Str :=
  ["linux-image", "linux-headers", "linux-modules", "linux-firmware",
   "linux-generic", "linux-lowlatency", "linux-oem", "linux-hwe",
   "linux-virtual", "linux-tools", "linux-cloud-tools", "linux-signed",
   "linux-restricted-modules"].map (fun s => s.data)

/-- `is_kernel_package` (src/apt.rs:65-90): the lowercased name starts with
one of the keywords. -/
def is_kernel_package (package_name : Str) : Bool :=
  kernel_keywords.any (fun k => k.isPrefixOf (toLowerStr package_name))

/-- keyword list of `determine_update_type` (src/apt.rs:41-51). -/
def security_packages : List Str :=
  ["openssl", "ssl", "gnutls", "ssh", "openssh", "curl", "wget",
   "firefox", "chromium", "thunderbird", "libreoffice",
   "apache", "nginx", "php", "mysql", "postgresql",
   "bind9", "dnsutils", "iptables", "ufw", "fail2ban",
   "systemd", "sudo", "polkit", "pam", "login", "passwd",
   "gpg", "gnupg", "ca-certificates", "certbot",
   "kernel", "linux-", "firmware", "microcode",
   "libc", "glibc", "zlib", "expat", "libxml", "libpng",
   "jpeg", "tiff", "git", "subversion", "rsync"].map (fun s => s.data)

/-- `determine_update_type` (src/apt.rs:27-62): kernel packages first, then
security repositories, then security-sensitive package names, else software. -/
def determine_update_type (package_name repository : Str) : UpdateType :=
  if is_kernel_package package_name then .Kernel
  else if containsSub repository "/security".data
       || containsSub repository "-security".data
       || containsSub repository "security.".data then .Security
  else if security_packages.any
       (fun p => containsSub (toLowerStr package_name) p) then .Security
  else .Software

/-! ## src/apt.rs: `get_package_sizes`

The two `Command` invocations (`apt show`, `apt-cache show`) are modelled by
passing their stdout as parameters `aptShowOut`/`aptCacheOut`. -/

/-- one line of the `apt show` scan (src/apt.rs:111-127): state is
`(sizes, current_package)`. -/
def aptShowScanStep (st : AList × Str) (rawLine : Str) : AList × Str :=
  let line := trimStr rawLine
  if "Package:".data.isPrefixOf line then
    match (splitWs line).get? 1 with
    | some p => (st.1, p)
    | none => st
  else if "Size:".data.isPrefixOf line ∧ st.2 ≠ [] then
    let sizes :=
      match (splitWs line).get? 1 with
      | some sz =>
        match parseU64? sz with
        | some n => alistInsert st.1 st.2 (format_size n)
        | none => st.1
      | none => st.1
    (sizes, [])
  else st

/-- one line of the `apt-cache show` scan (src/apt.rs:146-169): adds the
`Installed-Size:` (KiB) fallback. -/
def aptCacheScanStep (st : AList × Str) (rawLine : Str) : AList × Str :=
  let line := trimStr rawLine
  if "Package:".data.isPrefixOf line then
    match (splitWs line).get? 1 with
    | some p => (st.1, p)
    | none => st
  else if "Size:".data.isPrefixOf line ∧ st.2 ≠ [] then
    let sizes :=
      match (splitWs line).get? 1 with
      | some sz =>
        match parseU64? sz with
        | some n => alistInsert st.1 st.2 (format_size n)
        | none => st.1
      | none => st.1
    (sizes, [])
  else if "Installed-Size:".data.isPrefixOf line ∧ st.2 ≠ []
       ∧ ¬ alistHasKey st.1 st.2 then
    let sizes :=
      match (splitWs line).get? 1 with
      | some sz =>
        match parseU64? sz with
        | some kb => alistInsert st.1 st.2 (format_size (kb * 1024))
        | none => st.1
      | none => st.1
    (sizes, [])
  else st

/-- the sizes discovered by the two scans of `get_package_sizes`
(src/apt.rs:100-171), before the `"N/A"` fill. -/
def scanned_package_sizes (package_names : List Str)
    (aptShowOut aptCacheOut : Str) : AList :=
  let sizes := ((rustLines aptShowOut).foldl aptShowScanStep ([], [])).1
  let missing := package_names.filter (fun p => ¬ alistHasKey sizes p)
  if missing ≠ [] then
    ((rustLines aptCacheOut).foldl aptCacheScanStep (sizes, [])).1
  else sizes

/-- the final loop of `get_package_sizes`/`get_kernel_sizes`: every
requested package still missing is mapped to the sentinel. -/
def fillMissing (sizes : AList) (package_names : List Str) (sentinel : Str) :
    AList :=
  package_names.foldl
    (fun m p => if alistHasKey m p then m else alistInsert m p sentinel) sizes

/-- `get_package_sizes` (src/apt.rs:93-181): scan `apt show` output, rescan
`apt-cache show` output for the packages still missing, then map every still
missing package to the `"N/A"` sentinel. -/
def get_package_sizes (package_names : List Str) (aptShowOut aptCacheOut : Str) :
    AList :=
  if package_names = [] then []
  else
    fillMissing (scanned_package_sizes package_names aptShowOut aptCacheOut)
      package_names "N/A".data

/-! ## src/apt.rs: `parse_apt_list_output` -/

/-- record produced for one enumerated line of `apt list --upgradable`
output (src/apt.rs:189-233): the first line (`i == 0`) and blank lines are
skipped, as are lines with fewer than 4 whitespace fields. -/
def aptLineRecord (il : Nat × Str) : Option PackageUpdate :=
  if il.1 = 0 ∨ (trimStr il.2).isEmpty then none
  else
    match splitWs il.2 with
    | p0 :: p1 :: _ :: _ :: _ =>
      let name := headI (splitOnChar '/' p0)
      let parts := splitWs il.2
      let current_version :=
        match parts.findIdx? (fun p => p = "from:".data) with
        | some idx =>
          match parts.get? (idx + 1) with
          | some p => trimEndMatches ']' p
          | none => []
        | none => []
      some { name := name, current_version := current_version,
             new_version := p1,
             update_type := determine_update_type name p0, size := [] }
    | _ => none

/-- the record list collected by the first loop of `parse_apt_list_output`. -/
def aptRecords (ls : List Str) : List PackageUpdate :=
  (enumFrom 0 ls).filterMap aptLineRecord

/-- body of `parse_apt_list_output` over an already-split line list;
records get their size from the size map, defaulting to `"N/A"`. -/
def parse_apt_lines (ls : List Str) (aptShowOut aptCacheOut : Str) :
    List PackageUpdate :=
  let packages := aptRecords ls
  let package_names := packages.map (fun p => p.name)
  let sizes := get_package_sizes package_names aptShowOut aptCacheOut
  packages.map
    (fun pkg => { pkg with size := (alistGet? sizes pkg.name).getD "N/A".data })

/-- `parse_apt_list_output` (src/apt.rs:184-248) with the stdout of the two
size-query commands passed explicitly. -/
def parse_apt_list_output (s aptShowOut aptCacheOut : Str) : List PackageUpdate :=
  parse_apt_lines (rustLines s) aptShowOut aptCacheOut

/-! ## src/kernel_manager.rs: data model -/

inductive KernelType : Type
  | LTS
  | Mainline
  | Unknown
deriving DecidableEq

structure KernelInfo : Type where
  version : Str
  full_version : Str
  kernel_type : KernelType
  is_installed : Bool
  is_current : Bool
  major_version : Str
  package_name : Str
  size : Str
deriving DecidableEq

/-- `KernelInfo::extract_major_version` (src/kernel_manager.rs:47-55):
first two dot components, or the whole version. -/
def extract_major_version (version : Str) : Str :=
  match splitOnChar '.' version with
  | a :: b :: _ => a ++ ['.'] ++ b
  | _ => version

/-- `KernelInfo::determine_kernel_type` (src/kernel_manager.rs:57-80):
LTS allowlist on the first two numeric components, else Mainline. -/
def determine_kernel_type (version : Str) : KernelType :=
  match splitOnChar '.' version with
  | a :: b :: _ =>
    match parseI32? a, parseI32? b with
    | some major, some minor =>
      if (major = 6 ∧ minor = 12) ∨ (major = 6 ∧ minor = 6)
         ∨ (major = 6 ∧ minor = 1) ∨ (major = 5 ∧ minor = 15)
         ∨ (major = 5 ∧ minor = 10) ∨ (major = 5 ∧ minor = 4)
         ∨ (major = 4 ∧ minor = 19) then .LTS
      else .Mainline
    | _, _ => .Mainline
  | _ => .Mainline

/-- `KernelInfo::new` (src/kernel_manager.rs:30-45). -/
def KernelInfo.new (package_name version : Str) (is_installed : Bool) : KernelInfo :=
  { version := version, full_version := version,
    kernel_type := determine_kernel_type version,
    is_installed := is_installed, is_current := false,
    major_version := extract_major_version version,
    package_name := package_name, size := "N/A".data }

/-- `kernels_match` (src/kernel_manager.rs:140-158): exact equality, or
equality after dropping the `'/'`-suffixed repository segment, or after
additionally stripping `-unsigned`/`-dbg`. -/
def kernels_match (kernel1 kernel2 : Str) : Bool :=
  if kernel1 = kernel2 then true
  else
    let clean1 := headI (splitOnChar '/' kernel1)
    let clean2 := headI (splitOnChar '/' kernel2)
    if clean1 = clean2 then true
    else
      let base1 := replaceSub (replaceSub clean1 "-unsigned".data []) "-dbg".data []
      let base2 := replaceSub (replaceSub clean2 "-unsigned".data []) "-dbg".data []
      base1 = base2

/-- `extract_kernel_version_from_package` (src/kernel_manager.rs:312-325):
what follows `linux-image-` provided it starts with an ASCII digit. -/
def extract_kernel_version_from_package (package_name : Str) : Option Str :=
  if "linux-image-".data.isPrefixOf package_name then
    let version_part := package_name.drop "linux-image-".data.length
    match version_part with
    | [] => none
    | c :: _ => if c.isDigit then some version_part else none
  else none

/-! ## src/kernel_manager.rs: kernel enumeration

`dpkg --list linux-image-*`, `apt search ^linux-image-[0-9]` and `uname -r`
are modelled by the parameters `dpkgOut`, `aptSearchOut` and
`currentKernel`. -/

/-- one `dpkg --list` line of `get_installed_kernels`
(src/kernel_manager.rs:177-208); state is `(seen_versions, kernels)`. -/
def installedStep (currentKernel : Str) (st : List Str × List KernelInfo)
    (line : Str) : List Str × List KernelInfo :=
  if containsSub line "linux-image-".data
     ∧ ("ii".data.isPrefixOf line ∨ "hi".data.isPrefixOf line) then
    match splitWs line with
    | _ :: package_name :: _ :: _ =>
      if containsSub package_name "-unsigned".data
         ∨ containsSub package_name "-dbg".data
         ∨ containsSub package_name "-headers".data then st
      else
        match extract_kernel_version_from_package package_name with
        | some kernel_version =>
          let clean_version := headI (splitOnChar '/' kernel_version)
          if clean_version ∈ st.1 then st
          else
            let current_clean := headI (splitOnChar '/' currentKernel)
            let kernel :=
              { KernelInfo.new package_name clean_version true with
                is_current := current_clean = clean_version }
            (clean_version :: st.1, st.2 ++ [kernel])
        | none => st
    | _ => st
  else st

/-- `get_installed_kernels` (src/kernel_manager.rs:161-211). -/
def get_installed_kernels (dpkgOut currentKernel : Str) : List KernelInfo :=
  ((rustLines dpkgOut).foldl (installedStep currentKernel) ([], [])).2

/-- one `apt search` line of `get_available_kernels`
(src/kernel_manager.rs:231-272). -/
def availStep (currentKernel : Str) (installed_kernels : List KernelInfo)
    (st : List Str × List KernelInfo) (line : Str) : List Str × List KernelInfo :=
  if containsSub line "linux-image-".data
     ∧ ¬ "WARNING".data.isPrefixOf line then
    match splitWs line with
    | package_part :: _ =>
      let package_name := trimEndMatches '/' package_part
      match extract_kernel_version_from_package package_name with
      | some kernel_version =>
        if containsSub package_name "-unsigned".data
           ∨ containsSub package_name "-dbg".data
           ∨ containsSub package_name "-headers".data then st
        else
          let clean_version := headI (splitOnChar '/' kernel_version)
          if clean_version ∈ st.1 then st
          else
            let is_installed := installed_kernels.any (fun k =>
              let k_clean := headI (splitOnChar '/' k.version)
              k.package_name = package_name
              ∨ (k_clean = clean_version
                 ∧ ¬ containsSub k.package_name "-unsigned".data
                 ∧ ¬ containsSub k.package_name "-dbg".data))
            let current_clean := headI (splitOnChar '/' currentKernel)
            let kernel :=
              { KernelInfo.new package_name clean_version is_installed with
                is_current := current_clean = clean_version }
            (clean_version :: st.1, st.2 ++ [kernel])
      | none => st
    | [] => st
  else st

/-- the current-kernel synthesis step of `get_available_kernels`
(src/kernel_manager.rs:275-285). -/
def ensureCurrent (currentKernel : Str) (kernels : List KernelInfo) :
    List KernelInfo :=
  if currentKernel ≠ [] then
    let current_clean := headI (splitOnChar '/' currentKernel)
    if kernels.any (fun k => k.is_current ∨ k.version = current_clean) then kernels
    else
      let estimated_package := "linux-image-".data ++ current_clean
      kernels ++
        [{ KernelInfo.new estimated_package current_clean true with
           is_current := true }]
  else kernels

/-- the installed-kernel merge step of `get_available_kernels`
(src/kernel_manager.rs:288-306). -/
def mergeInstalledStep (kernels : List KernelInfo) (installed : KernelInfo) :
    List KernelInfo :=
  if containsSub installed.package_name "-unsigned".data
     ∨ containsSub installed.package_name "-dbg".data
     ∨ containsSub installed.package_name "-headers".data then kernels
  else
    let installed_clean := headI (splitOnChar '/' installed.version)
    if kernels.any (fun k =>
        k.package_name = installed.package_name ∨ k.version = installed_clean)
    then kernels
    else kernels ++ [{ installed with version := installed_clean }]

/-- `get_available_kernels` (src/kernel_manager.rs:214-309). -/
def get_available_kernels (aptSearchOut dpkgOut currentKernel : Str) :
    List KernelInfo :=
  let installed_kernels := get_installed_kernels dpkgOut currentKernel
  let kernels :=
    ((rustLines aptSearchOut).foldl
      (availStep currentKernel installed_kernels) ([], [])).2
  let kernels := ensureCurrent currentKernel kernels
  installed_kernels.foldl mergeInstalledStep kernels

/-! ## src/kernel_manager.rs: version ordering and grouping -/

/-- one component comparison of `version_compare`
(src/kernel_manager.rs:358-372): numeric when both parse as `i32`, else
lexicographic. -/
def partCmp (a b : Str) : Ordering :=
  match parseI32? a, parseI32? b with
  | some x, some y => intCmp x y
  | _, _ => lexCmp a b

/-- tail of the `version_compare` loop once the second string is exhausted:
each remaining component is compared against the implicit `"0"`. -/
def vcTailA : List Str → Ordering
  | [] => .eq
  | a :: as' =>
    match partCmp a "0".data with
    | .eq => vcTailA as'
    | o => o

/-- tail of the `version_compare` loop once the first string is exhausted. -/
def vcTailB : List Str → Ordering
  | [] => .eq
  | b :: bs' =>
    match partCmp "0".data b with
    | .eq => vcTailB bs'
    | o => o

/-- the `for i in 0..max_len` loop of `version_compare`: missing components
default to `"0"` (`unwrap_or(&"0")`), rendered by the tail helpers. -/
def vcAux : List Str → List Str → Ordering
  | [], bs => vcTailB bs
  | a :: as', [] =>
    match partCmp a "0".data with
    | .eq => vcTailA as'
    | o => o
  | a :: as', b :: bs' =>
    match partCmp a b with
    | .eq => vcAux as' bs'
    | o => o

/-- `version_compare` (src/kernel_manager.rs:347-376): split both strings on
`'.'` and `'-'`, compare component-wise. -/
def version_compare (a b : Str) : Ordering :=
  vcAux (splitOnP (fun c => c = '.' ∨ c = '-') a)
        (splitOnP (fun c => c = '.' ∨ c = '-') b)

/-- the comparator closure passed to `sort_by`
(src/kernel_manager.rs:337-340): `version_compare(&b.version, &a.version)`. -/
def kernelDescCmp (a b : KernelInfo) : Ordering :=
  version_compare b.version a.version

/-- stable insertion used to model `Vec::sort_by` (a stable sort): an
element is placed before the first existing element strictly greater than
it.  Rust guarantees a sorted, stable result for comparators implementing a
consistent order; the insertion model realises exactly that contract
(the comparator used here satisfies `cmp a b = (cmp b a).swap`, proved as
`version_compare_swap`). -/
def insertSorted (cmp : KernelInfo → KernelInfo → Ordering) (x : KernelInfo) :
    List KernelInfo → List KernelInfo
  | [] => [x]
  | y :: ys =>
    if cmp x y = .lt then x :: y :: ys else y :: insertSorted cmp x ys

/-- stable sort by a comparator (models `Vec::sort_by`). -/
def sortByCmp (cmp : KernelInfo → KernelInfo → Ordering)
    (l : List KernelInfo) : List KernelInfo :=
  l.foldl (fun acc x => insertSorted cmp x acc) []

/-- `HashMap::entry(..).or_insert_with(Vec::new).push(..)` modelled as an
association list in first-insertion order. -/
def groupPush (gs : List (Str × List KernelInfo)) (k : KernelInfo) :
    List (Str × List KernelInfo) :=
  if gs.any (fun g => g.1 = k.major_version) then
    gs.map (fun g => if g.1 = k.major_version then (g.1, g.2 ++ [k]) else g)
  else gs ++ [(k.major_version, [k])]

/-- `group_kernels_by_major_version` (src/kernel_manager.rs:328-344): group
by `major_version`, then sort each group with
`version_compare(&b.version, &a.version)` (descending). -/
def group_kernels_by_major_version (kernels : List KernelInfo) :
    List (Str × List KernelInfo) :=
  (kernels.foldl groupPush []).map (fun g => (g.1, sortByCmp kernelDescCmp g.2))

/-! ## src/kernel_manager.rs: sizes, removal planning -/

/-- the sizes discovered by the `apt show` scan of `get_kernel_sizes`
(src/kernel_manager.rs:387-413), before the default fill. -/
def scanned_kernel_sizes (aptShowOut : Str) : AList :=
  ((rustLines aptShowOut).foldl aptShowScanStep ([], [])).1

/-- `get_kernel_sizes` (src/kernel_manager.rs:379-423): same `apt show` scan
as `get_package_sizes` but packages with no discovered size default to
`"~50 MB"`. -/
def get_kernel_sizes (package_names : List Str) (aptShowOut : Str) : AList :=
  if package_names = [] then []
  else
    fillMissing (scanned_kernel_sizes aptShowOut) package_names "~50 MB".data

/-- package-type prefixes scanned by `find_related_kernel_packages`
(src/kernel_manager.rs:512-519). -/
def related_package_types : List Str :=
  ["linux-image", "linux-headers", "linux-modules", "linux-modules-extra",
   "linux-image-unsigned", "linux-headers-generic"].map (fun s => s.data)

/-- `find_related_kernel_packages` (src/kernel_manager.rs:503-550) over the
stdout of `dpkg -l`: the named package plus every installed
`<type>-<version>` variant, deduplicated. -/
def find_related_kernel_packages (main_package : Str) (dpkgOut : Str) :
    List Str :=
  let packages := [main_package]
  match extract_kernel_version_from_package main_package with
  | none => packages
  | some kernel_version =>
    (rustLines dpkgOut).foldl
      (fun pkgs line =>
        if "ii".data.isPrefixOf line then
          match splitWs line with
          | _ :: package_name :: _ =>
            related_package_types.foldl
              (fun pkgs2 package_type =>
                let expected := package_type ++ ['-'] ++ kernel_version
                if package_name = expected ∧ package_name ∉ pkgs2 then
                  pkgs2 ++ [package_name]
                else pkgs2)
              pkgs
          | _ => pkgs
        else pkgs)
      packages

/-- a privileged command issued through `pkexec`. -/
inductive SysCmd : Type
  | removePurge (package : Str)
  | autoremove
deriving DecidableEq

/-- error message of the current-kernel guard (src/kernel_manager.rs:462). -/
def currentKernelErr : Str := "The current running kernel cannot be removed.".data

/-- `remove_kernel_with_autoremove` (src/kernel_manager.rs:458-500) as a
plan: the result is the `Result` together with the list of privileged
commands issued (`apt remove --purge -y <pkg>` per related package, then
`apt autoremove -y`); when the guard fires, the function bails before any
command runs. -/
def remove_kernel_with_autoremove (package_name current_kernel dpkgOut : Str) :
    Except Str Unit × List SysCmd :=
  let guard :=
    match extract_kernel_version_from_package package_name with
    | some kernel_version => kernels_match current_kernel kernel_version
    | none => false
  if guard then (.error currentKernelErr, [])
  else
    let kernel_packages := find_related_kernel_packages package_name dpkgOut
    (.ok (), kernel_packages.map SysCmd.removePurge ++ [SysCmd.autoremove])

/-! ## src/kernel_manager.rs: GRUB entry synthesis

`set_default_kernel` (src/kernel_manager.rs:808-983) chooses the entry
string passed to `set_grub_default_via_config`.  The effects it reads are
passed as parameters: `isLmde` (`is_lmde_system()`), `grubContent` (the
first existing GRUB config file's text, `none` when no path exists or the
read fails) and `detectedDistro` (`detect_distribution_name()`). -/

/-- the single-quote character of the GRUB title syntax. -/
def sq : Char := Char.ofNat 39

/-- state of the primary analysis loop (src/kernel_manager.rs:848-891):
`(found_entry, current_submenu, in_advanced_options)`; once `found_entry`
is set the loop has broken and later lines are ignored. -/
def grubStep (clean_version : Str) (st : Option Str × Str × Bool)
    (rawLine : Str) : Option Str × Str × Bool :=
  match st with
  | (some e, sm, fl) => (some e, sm, fl)
  | (none, sm, fl) =>
    let line := trimStr rawLine
    let smfl :=
      if "submenu ".data.isPrefixOf line then
        match strFind sq line, strRfind sq line with
        | some a, some b =>
          let t := sliceStr line (a + 1) b
          let lower := toLowerStr t
          if containsSub lower "advanced".data
             ∨ containsSub lower "gelişmiş".data
             ∨ containsSub lower "options".data
             ∨ containsSub lower "seçenekler".data then (t, true)
          else (t, fl)
        | _, _ => (sm, fl)
      else (sm, fl)
    if smfl.2 ∧ "menuentry ".data.isPrefixOf line
       ∧ containsSub line clean_version then
      match strFind sq line, strRfind sq line with
      | some a, some b =>
        (some (smfl.1 ++ ['>'] ++ sliceStr line (a + 1) b), smfl.1, smfl.2)
      | _, _ => (none, smfl.1, smfl.2)
    else
      (none, smfl.1, if line = ['\x7d'] ∧ smfl.2 then false else smfl.2)

/-- the primary GRUB menu analysis: first `menuentry` line containing the
version while the advanced-options flag is on. -/
def grubFindEntry (content clean_version : Str) : Option Str :=
  ((rustLines content).foldl (grubStep clean_version) (none, [], false)).1

/-- first fallback (src/kernel_manager.rs:908-926): distribution name from
the first `submenu` line whose title starts `Advanced options for `. -/
def findRealDistroName : List Str → Option Str
  | [] => none
  | rawLine :: rest =>
    let line := trimStr rawLine
    if "submenu ".data.isPrefixOf line
       ∧ containsSub line "Advanced options for".data then
      match strFind sq line, strRfind sq line with
      | some a, some b =>
        let t := sliceStr line (a + 1) b
        if "Advanced options for ".data.isPrefixOf t then
          some (t.drop "Advanced options for ".data.length)
        else findRealDistroName rest
      | _, _ => findRealDistroName rest
    else findRealDistroName rest

/-- second loop of the fallback (src/kernel_manager.rs:931-960): first
non-recovery `menuentry` with the version inside the advanced submenu; the
scan stops at the first `\x7d` line once inside the submenu. -/
def findMainEntry (clean_version : Str) : Bool → List Str → Option Str
  | _, [] => none
  | inAdv, rawLine :: rest =>
    let line := trimStr rawLine
    if "submenu ".data.isPrefixOf line
       ∧ containsSub line "Advanced options for".data then
      findMainEntry clean_version true rest
    else if inAdv ∧ "menuentry ".data.isPrefixOf line
         ∧ containsSub line clean_version
         ∧ ¬ containsSub (toLowerStr line) "recovery".data then
      match strFind sq line, strRfind sq line with
      | some a, some b => some (sliceStr line (a + 1) b)
      | _, _ => findMainEntry clean_version inAdv rest
    else if inAdv ∧ line = ['\x7d'] then none
    else findMainEntry clean_version inAdv rest

/-- guessed `"Advanced options for <d>><d>, with Linux <v>"` entry used by
the manual fallbacks (src/kernel_manager.rs:969 and 979). -/
def manualEntry (distro clean_version : Str) : Str :=
  "Advanced options for ".data ++ distro ++ ['>'] ++ distro
    ++ ", with Linux ".data ++ clean_version

/-- the entry string `set_default_kernel` hands to
`set_grub_default_via_config`. -/
def set_default_kernel_entry (isLmde : Bool) (grubContent : Option Str)
    (detectedDistro kernel_version : Str) : Str :=
  let clean_version := headI (splitOnChar '/' kernel_version)
  if isLmde then
    "Advanced options for LMDE 6 Faye>LMDE 6 Faye, with Linux ".data
      ++ clean_version
  else
    match grubContent with
    | some content =>
      match grubFindEntry content clean_version with
      | some entry => entry
      | none =>
        match findRealDistroName (rustLines content) with
        | some distro =>
          match findMainEntry clean_version false (rustLines content) with
          | some main_entry =>
            "Advanced options for ".data ++ distro ++ ['>'] ++ main_entry
          | none => manualEntry distro clean_version
        | none => manualEntry detectedDistro clean_version
    | none => manualEntry detectedDistro clean_version

/-! ## src/driver_manager.rs: driver detection

The probes (`lsmod`, `pgrep`, `systemctl is-active`, `/proc/asound`) are
modelled by parameters carrying the command output or the probe outcome. -/

inductive DriverType : Type
  | Graphics
  | Network
  | Audio
  | Bluetooth
  | Chipset
  | Storage
  | Input
  | Other
deriving DecidableEq

inductive DriverLicense : Type
  | Free
  | NonFree
  | Unknown
deriving DecidableEq

structure DriverInfo : Type where
  name : Str
  description : Str
  package_name : Str
  version : Str
  driver_type : DriverType
  license : DriverLicense
  vendor : Str
  device_id : Str
  is_installed : Bool
  is_active : Bool
  is_recommended : Bool
  modalias : Option Str
deriving DecidableEq

/-- `DriverInfo::new` (src/driver_manager.rs:44-69). -/
def DriverInfo.new (name description package_name version : Str)
    (driver_type : DriverType) (license : DriverLicense)
    (vendor device_id : Str) : DriverInfo :=
  { name := name, description := description, package_name := package_name,
    version := version, driver_type := driver_type, license := license,
    vendor := vendor, device_id := device_id,
    is_installed := false, is_active := false, is_recommended := false,
    modalias := none }

/-- a parsed `lspci -nn` device tuple `(bus_info, description, device_id)`. -/
abbrev Device := Str × Str × Str

/-- `detect_network_drivers` (src/driver_manager.rs:671-834); `lsmodOut` is
the stdout of `lsmod`. -/
def detect_network_drivers (installed : AList) (devices : List Device)
    (lsmodOut : Str) : List DriverInfo :=
  let perDevice := devices.foldl (fun drivers dev =>
    let desc := dev.2.1
    let device_id := dev.2.2
    let desc_lower := toLowerStr desc
    let drivers :=
      if containsSub desc_lower "realtek".data
         ∧ containsSub desc_lower "ethernet".data then
        let is_active := containsSub lsmodOut "r8169".data
          ∨ containsSub lsmodOut "r8168".data
        drivers ++
          [{ DriverInfo.new "r8168-dkms".data
               ("Realtek Ethernet Driver - ".data ++ desc) "r8168-dkms".data
               (if is_active then "Built-in".data else "Available".data)
               .Network .Free "Realtek".data device_id with
             is_installed := is_active, is_active := is_active,
             is_recommended := true }]
      else drivers
    if containsSub desc_lower "realtek".data
       ∧ (containsSub desc_lower "wireless".data
          ∨ containsSub desc_lower "wi-fi".data
          ∨ containsSub desc_lower "802.11".data
          ∨ containsSub desc_lower "wlan".data) then
      [("rtl8192eu-dkms", "Realtek RTL8192EU WiFi"),
       ("rtl8821ce-dkms", "Realtek RTL8821CE WiFi")].foldl
        (fun ds (pd : String × String) =>
          let package := pd.1.data
          let package_installed := alistHasKey installed package
          let is_active :=
            if containsSub package "rtl8192eu".data then
              containsSub lsmodOut "rtl8192eu".data
            else if containsSub package "rtl8821ce".data then
              containsSub lsmodOut "rtl8821ce".data
            else false
          let is_truly_installed := package_installed ∧ is_active
          ds ++
            [{ DriverInfo.new package (pd.2.data ++ " - ".data ++ desc) package
                 (if is_truly_installed then
                    (alistGet? installed package).getD "Active".data
                  else "Available".data)
                 .Network .Free "Realtek".data device_id with
               is_installed := is_truly_installed, is_active := is_active }])
        drivers
    else drivers) []
  let has_broadcom_wifi := devices.any (fun dev =>
    let dl := toLowerStr dev.2.1
    containsSub dl "broadcom".data
    ∧ (containsSub dl "wireless".data ∨ containsSub dl "wi-fi".data
       ∨ containsSub dl "802.11".data ∨ containsSub dl "wlan".data))
  let withBroadcom :=
    if has_broadcom_wifi then
      [("broadcom-sta-dkms", "Broadcom STA (Proprietary)", DriverLicense.NonFree),
       ("b43-fwcutter", "B43 Firmware Cutter (Open Source)", DriverLicense.Free)].foldl
        (fun ds (pdl : String × String × DriverLicense) =>
          let package := pdl.1.data
          let package_installed := alistHasKey installed package
          let is_active :=
            if package = "broadcom-sta-dkms".data then
              containsSub lsmodOut "wl".data
            else containsSub lsmodOut "b43".data
          let is_truly_installed := package_installed ∧ is_active
          ds ++
            [{ DriverInfo.new package pdl.2.1.data package
                 (if is_truly_installed then
                    (alistGet? installed package).getD "Active".data
                  else "Available".data)
                 .Network pdl.2.2 "Broadcom".data [] with
               is_installed := is_truly_installed, is_active := is_active,
               is_recommended := package = "broadcom-sta-dkms".data }])
        perDevice
    else perDevice
  let has_intel_wifi := devices.any (fun dev =>
    let dl := toLowerStr dev.2.1
    containsSub dl "intel".data
    ∧ (containsSub dl "wireless".data ∨ containsSub dl "wi-fi".data
       ∨ containsSub dl "802.11".data ∨ containsSub dl "centrino".data))
  if has_intel_wifi then
    let is_active := containsSub lsmodOut "iwlwifi".data
    withBroadcom ++
      [{ DriverInfo.new "iwlwifi".data "Intel WiFi Driver".data "iwlwifi".data
           (if is_active then "Built-in".data else "Available".data)
           .Network .Free "Intel".data [] with
         is_installed := is_active, is_active := is_active,
         is_recommended := true }]
  else withBroadcom

/-- the record built by one iteration of the `detect_audio_drivers` loop
(src/driver_manager.rs:845-901). -/
def audioDriverRecord (installed : AList)
    (pgrepPulse pgrepPipewire asoundExists : Bool)
    (pdl : String × String × DriverLicense) : DriverInfo :=
  let package := pdl.1.data
  let package_installed := alistHasKey installed package
    ∨ installed.any (fun kv =>
        package.isPrefixOf kv.1 ∨ containsSub kv.1 (package ++ ['-']))
  let is_active :=
    if package = "pulseaudio".data then pgrepPulse
    else if package = "pipewire".data then pgrepPipewire
    else if package = "alsa-base".data then asoundExists
    else false
  let is_truly_installed := package_installed ∨ is_active
  let consistent_active := if package_installed then is_active else false
  { DriverInfo.new package pdl.2.1.data package
      (if is_truly_installed then
         (alistGet? installed package).getD "Active".data
       else "Available".data)
      .Audio pdl.2.2 "Generic".data [] with
    is_installed := is_truly_installed,
    is_active := consistent_active,
    is_recommended := package = "pulseaudio".data }

/-- `detect_audio_drivers` (src/driver_manager.rs:836-904); the two `pgrep`
probes and the `/proc/asound` existence check are passed as booleans. -/
def detect_audio_drivers (installed : AList)
    (pgrepPulse pgrepPipewire asoundExists : Bool) : List DriverInfo :=
  [("alsa-base", "ALSA Sound System", DriverLicense.Free),
   ("pulseaudio", "PulseAudio", DriverLicense.Free),
   ("pipewire", "PipeWire", DriverLicense.Free)].foldl
    (fun drivers pdl =>
      drivers ++ [audioDriverRecord installed pgrepPulse pgrepPipewire
        asoundExists pdl])
    []

/-- `detect_bluetooth_drivers` (src/driver_manager.rs:907-953);
`systemctlOut` is the stdout of `systemctl is-active bluetooth`. -/
def detect_bluetooth_drivers (installed : AList) (systemctlOut : Str) :
    List DriverInfo :=
  [("bluez", "BlueZ Bluetooth Stack", DriverLicense.Free),
   ("bluetooth", "Bluetooth Support", DriverLicense.Free)].foldl
    (fun drivers (pdl : String × String × DriverLicense) =>
      let package := pdl.1.data
      let package_installed := alistHasKey installed package
      let is_active := trimStr systemctlOut = "active".data
      let is_truly_installed := package_installed ∧ is_active
      drivers ++
        [{ DriverInfo.new package pdl.2.1.data package
             (if is_truly_installed then
                (alistGet? installed package).getD "Active".data
              else "Available".data)
             .Bluetooth pdl.2.2 "Generic".data [] with
           is_installed := is_truly_installed, is_active := is_active,
           is_recommended := package = "bluez".data }])
    []

/-- the unconditional `general_firmware` tail of `detect_firmware_packages`
(src/driver_manager.rs:1053-1080); the Realtek/Intel/Atheros firmware parts
are gated on the device list and contribute nothing when it is empty. -/
def general_firmware_records (installed : AList) : List DriverInfo :=
  [("firmware-linux", "Linux Firmware (Free)", DriverLicense.Free),
   ("firmware-linux-nonfree", "Linux Firmware (Non-free)", DriverLicense.NonFree)].map
    (fun (pdl : String × String × DriverLicense) =>
      let package := pdl.1.data
      let package_installed := alistHasKey installed package
      { DriverInfo.new package pdl.2.1.data package
          (if package_installed then
             (alistGet? installed package).getD "Active".data
           else "Available".data)
          .Other pdl.2.2 "Various".data [] with
        is_installed := package_installed, is_active := package_installed,
        is_recommended := package = "firmware-linux-nonfree".data })

/-- `detect_drivers` (src/driver_manager.rs:251-313) specialized to system
states where `lspci -nn` reports no devices and `lscpu` reports no Intel
CPU: `detect_nvidia_hardware`, `detect_amd_hardware` and
`detect_intel_hardware` iterate the (empty) device list and find nothing, so
the NVIDIA/AMD/Intel branches are skipped; `detect_network_drivers` runs on
the empty device list; `has_audio_hardware` degrades to the `/proc/asound`
existence probe; the Bluetooth branch is gated on `has_bluetooth_hardware()`
(passed as `hasBluetooth`); `detect_firmware_packages` contributes only its
unconditional general-firmware records. -/
def detect_drivers_no_pci (installed : AList) (lsmodOut : Str)
    (asoundExists hasBluetooth pgrepPulse pgrepPipewire : Bool)
    (systemctlOut : Str) : List DriverInfo :=
  detect_network_drivers installed [] lsmodOut
    ++ (if asoundExists then
          detect_audio_drivers installed pgrepPulse pgrepPipewire asoundExists
        else [])
    ++ (if hasBluetooth then detect_bluetooth_drivers installed systemctlOut
        else [])
    ++ general_firmware_records installed

/-! ## Predicates used by the verification -/

/-- well-formedness of one `apt list --upgradable` line as far as the name
extraction is concerned: the first whitespace field does not begin with
`'/'` (the documented format is `<pkg>/<repo> ...` with a non-empty package
name). -/
def wfAptLine (l : Str) : Prop :=
  match splitWs l with
  | t :: _ => t.head? ≠ some '/'
  | [] => True

instance (l : Str) : Decidable (wfAptLine l) := by
  unfold wfAptLine
  cases splitWs l with
  | nil => exact inferInstanceAs (Decidable True)
  | cons t ts => exact inferInstanceAs (Decidable (t.head? ≠ some '/'))

/-- the three suffix markers the spec's normalization strips. -/
def noBadSuffix (v : Str) : Prop :=
  containsSub v "-unsigned".data = false ∧ containsSub v "-dbg".data = false
    ∧ containsSub v "-headers".data = false

instance (v : Str) : Decidable (noBadSuffix v) := by
  unfold noBadSuffix; infer_instance

/-- Modelled from the spec: "normalized version (stripping
`-unsigned`/`-dbg`/`-headers` suffixes)" and "repository-path segments" —
the normal form by which claim C5 compares kernel records. -/
def spec_normalized_version (v : Str) : Str :=
  replaceSub (replaceSub (replaceSub (headI (splitOnChar '/' v))
    "-unsigned".data []) "-dbg".data []) "-headers".data []

/-- descending order: the element before is never strictly older. -/
def DescOk (a b : KernelInfo) : Prop := kernelDescCmp a b ≠ .gt

/-- the version field never carries a repository segment. -/
def noSlash (v : Str) : Prop := ∀ c ∈ v, ¬ c = '/'

/-- per-record invariant: `is_current` is exactly the comparison against the
slash-cleaned running kernel, and the version is slash-free. -/
def KOk (cur : Str) (k : KernelInfo) : Prop :=
  k.is_current = decide (headI (splitOnChar '/' cur) = k.version)
    ∧ noSlash k.version

/-- list invariant: pairwise-distinct exact versions, all records `KOk`. -/
def KListOk (cur : Str) (ks : List KernelInfo) : Prop :=
  ks.Pairwise (fun a b => a.version ≠ b.version) ∧ ∀ k ∈ ks, KOk cur k

def KListNoBad (ks : List KernelInfo) : Prop :=
  ∀ k ∈ ks, noBadSuffix k.version

/-- scan-state invariant: every emitted version is recorded in the seen set. -/
def ScanInv (cur : Str) (st : List Str × List KernelInfo) : Prop :=
  (∀ k ∈ st.2, k.version ∈ st.1) ∧ KListOk cur st.2 ∧ KListNoBad st.2

/-! ## Concrete fixtures used to instantiate the claims -/

/-- default record used with `List.getD`. -/
def kdflt : KernelInfo := KernelInfo.new [] [] false

/-- default record used with `List.getD`. -/
def ddflt : DriverInfo :=
  DriverInfo.new [] [] [] [] .Other .Unknown [] []

/-- GRUB config of the claim's example: an advanced-options submenu holding
the target menuentry. -/
def c2_cfg : Str :=
  ("submenu \x27Advanced options for Debian GNU/Linux\x27 \x7b\n"
   ++ "menuentry \x27Debian GNU/Linux, with Linux 6.1.0-13-amd64\x27 \x7b\n"
   ++ "\x7d\n\x7d\n").data

/-- GRUB config whose advanced submenu lists the recovery entry first. -/
def c2_cfg_recovery : Str :=
  ("submenu \x27Advanced options for Debian GNU/Linux\x27 \x7b\n"
   ++ "menuentry \x27Debian GNU/Linux, with Linux 6.1.0-13-amd64 (recovery mode)\x27 \x7b\n"
   ++ "\x7d\n"
   ++ "menuentry \x27Debian GNU/Linux, with Linux 6.1.0-13-amd64\x27 \x7b\n"
   ++ "\x7d\n\x7d\n").data

/-- one `apt search` result line listing the 6.1.0 kernel image. -/
def c5_apt : Str := "linux-image-6.1.0/bookworm 6.1.66-1 amd64\n".data

/-- one `apt search` result line listing the 6.1.0-13 kernel image. -/
def c4_apt : Str :=
  "linux-image-6.1.0-13-amd64/stable 6.1.66-1 amd64 kernel image\n".data

/-- two kernels in the 6.1 series, listed oldest first. -/
def c6_ks : List KernelInfo :=
  [KernelInfo.new "linux-image-6.1.0-8-amd64".data "6.1.0-8-amd64".data true,
   KernelInfo.new "linux-image-6.1.0-13-amd64".data "6.1.0-13-amd64".data true]

/-- a well-formed upgradable-package line. -/
def c10_line : Str := "bash/stable 5.1-2 amd64 [upgradable from: 5.1-1]".data

/-- the same package line twice: the second occurrence survives parsing. -/
def c10_text : Str := c10_line ++ '\n' :: c10_line

/-- the sample input of the repository's own tests/apt_tests.rs. -/
def c8_sample : Str :=
  ("Listing...\nbash/stable 5.1-2+deb11u1 amd64 [upgradable from: 5.1-2]\n"
   ++ "openssl/security 1.1.1d-0+deb10u6 amd64 [upgradable from: 1.1.1d-0+deb10u1]\n").data

/-! ## Basic lemmas about the string operations -/

theorem splitOnP_ne_nil (p : Char → Bool) (s : Str) : splitOnP p s ≠ [] := by
  induction s with
  | nil => simp [splitOnP]
  | cons c rest ih =>
    simp only [splitOnP]
    by_cases h : p c
    · simp [h]
    · simp only [h]
      cases hs : splitOnP p rest with
      | nil => simp
      | cons t ts => simp

theorem splitOnP_cons_not (p : Char → Bool) (c : Char) (rest : Str)
    (h : ¬ p c) :
    splitOnP p (c :: rest) =
      (c :: headI (splitOnP p rest)) :: (splitOnP p rest).tail := by
  simp only [splitOnP, h]
  cases hs : splitOnP p rest with
  | nil => exact absurd hs (splitOnP_ne_nil p rest)
  | cons t ts => simp [headI, hs]

theorem headI_splitOnP_cons_not (p : Char → Bool) (c : Char) (rest : Str)
    (h : ¬ p c) :
    headI (splitOnP p (c :: rest)) = c :: headI (splitOnP p rest) := by
  rw [splitOnP_cons_not p c rest h]; rfl

theorem headI_splitOnP_cons_pos (p : Char → Bool) (c : Char) (rest : Str)
    (h : p c) : headI (splitOnP p (c :: rest)) = [] := by
  simp [splitOnP, h, headI]



/-- the first piece of a split is a prefix of the string. -/
theorem headI_splitOnP_append (p : Char → Bool) (s : Str) :
    ∃ t, s = headI (splitOnP p s) ++ t := by
  induction s with
  | nil => exact ⟨[], by simp [splitOnP, headI]⟩
  | cons c rest ih =>
    by_cases h : p c
    · exact ⟨c :: rest, by simp [headI_splitOnP_cons_pos p c rest h]⟩
    · obtain ⟨t, ht⟩ := ih
      exact ⟨t, by rw [headI_splitOnP_cons_not p c rest h]; simpa using ht⟩

/-- the first piece of a split contains no separator. -/
theorem headI_splitOnP_no_sep (p : Char → Bool) (s : Str) :
    ∀ c ∈ headI (splitOnP p s), ¬ p c := by
  induction s with
  | nil => simp [splitOnP, headI]
  | cons c rest ih =>
    by_cases h : p c
    · simp [headI_splitOnP_cons_pos p c rest h]
    · rw [headI_splitOnP_cons_not p c rest h]
      intro d hd
      rcases List.mem_cons.1 hd with rfl | hd'
      · exact h
      · exact ih d hd'

/-- a string without separators splits into itself. -/
theorem splitOnP_eq_self (p : Char → Bool) (s : Str)
    (h : ∀ c ∈ s, ¬ p c) : splitOnP p s = [s] := by
  induction s with
  | nil => simp [splitOnP]
  | cons c rest ih =>
    have hc : ¬ p c := h c (by simp)
    rw [splitOnP_cons_not p c rest hc,
        ih (fun d hd => h d (List.mem_cons_of_mem c hd))]
    rfl

theorem headI_splitOnP_eq_self (p : Char → Bool) (s : Str)
    (h : ∀ c ∈ s, ¬ p c) : headI (splitOnP p s) = s := by
  rw [splitOnP_eq_self p s h]; rfl

theorem isPrefixOf_append_drop (l : Str) : ∀ s : Str,
    l.isPrefixOf s = true → s = l ++ s.drop l.length := by
  induction l with
  | nil => intro s _; simp
  | cons a l' ih =>
    intro s h
    cases s with
    | nil => simp [List.isPrefixOf] at h
    | cons b s' =>
      simp only [List.isPrefixOf, Bool.and_eq_true, beq_iff_eq] at h
      obtain ⟨rfl, h2⟩ := h
      simpa using ih s' h2

theorem isPrefixOf_of_append (l t : Str) : l.isPrefixOf (l ++ t) = true := by
  induction l with
  | nil => simp [List.isPrefixOf]
  | cons a l' ih => simp [List.isPrefixOf, ih]

/-- `contains` is preserved by extending the string on the right. -/
theorem containsSub_append_right (x y pat : Str)
    (h : containsSub x pat = true) : containsSub (x ++ y) pat = true := by
  induction x with
  | nil =>
    simp only [containsSub, List.isEmpty_iff] at h
    subst h
    cases y with
    | nil => simp [containsSub]
    | cons c ys => simp [containsSub, List.isPrefixOf]
  | cons c xs ih =>
    simp only [containsSub, Bool.or_eq_true] at h ⊢
    rcases h with h | h
    · left
      obtain ⟨t, ht⟩ : ∃ t, c :: xs = pat ++ t :=
        ⟨(c :: xs).drop pat.length, isPrefixOf_append_drop pat (c :: xs) h⟩
      rw [ht, List.append_assoc]
      exact isPrefixOf_of_append pat _
    · right; exact ih h

/-- `contains` is preserved by extending the string on the left. -/
theorem containsSub_append_left (x y pat : Str)
    (h : containsSub y pat = true) : containsSub (x ++ y) pat = true := by
  induction x with
  | nil => simpa using h
  | cons c xs ih =>
    simp only [List.cons_append, containsSub, Bool.or_eq_true]
    right; exact ih

theorem replaceSubFuel_of_not_contains (pat rep : Str) : ∀ (n : Nat) (s : Str),
    s.length ≤ n → containsSub s pat = false → replaceSubFuel pat rep n s = s := by
  intro n
  induction n with
  | zero =>
    intro s hlen _
    cases s with
    | nil => rfl
    | cons c rest => simp at hlen
  | succ n ih =>
    intro s hlen h
    cases s with
    | nil => rfl
    | cons c rest =>
      simp only [containsSub, Bool.or_eq_false_iff] at h
      have hpre : ¬ (pat ≠ [] ∧ pat.isPrefixOf (c :: rest) = true) := by
        intro hc; exact absurd hc.2 (by simp [h.1])
      rw [replaceSubFuel, if_neg hpre,
        ih rest (by simp only [List.length_cons] at hlen; omega) h.2]

/-- `replace` leaves a string without occurrences unchanged. -/
theorem replaceSub_of_not_contains (pat rep : Str) : ∀ s : Str,
    containsSub s pat = false → replaceSub s pat rep = s := by
  intro s h
  exact replaceSubFuel_of_not_contains pat rep s.length s (Nat.le_refl _) h





theorem spec_normalized_eq_self (v : Str) (hs : ∀ c ∈ v, ¬ c = '/')
    (hb : noBadSuffix v) : spec_normalized_version v = v := by
  unfold spec_normalized_version splitOnChar
  rw [headI_splitOnP_eq_self _ v (by simpa using hs)]
  rw [replaceSub_of_not_contains _ _ v hb.1,
      replaceSub_of_not_contains _ _ v hb.2.1,
      replaceSub_of_not_contains _ _ v hb.2.2]

/-! ## Lemmas about the association-list map -/

theorem alistGet?_insert_self (k v : Str) : ∀ m : AList,
    alistGet? (alistInsert m k v) k = some v := by
  intro m
  induction m with
  | nil => simp [alistInsert, alistGet?, List.find?]
  | cons q rest ih =>
    by_cases hq : q.1 = k
    · simp [alistInsert, hq, alistGet?, List.find?]
    · simp only [alistInsert, if_neg hq]
      simp only [alistGet?, List.find?, hq, decide_eq_true_eq] at ih ⊢
      simpa [hq] using ih

theorem alistGet?_insert_other (k v k' : Str) (hne : k' ≠ k) : ∀ m : AList,
    alistGet? (alistInsert m k v) k' = alistGet? m k' := by
  intro m
  have hkk : ¬ (k = k') := fun h => hne h.symm
  induction m with
  | nil => simp [alistInsert, alistGet?, List.find?, hkk]
  | cons q rest ih =>
    by_cases hq : q.1 = k
    · have hq' : ¬ (q.1 = k') := by rw [hq]; exact hkk
      simp [alistInsert, hq, alistGet?, List.find?, hkk, hq']
    · have hins : alistInsert (q :: rest) k v = q :: alistInsert rest k v := by
        simp [alistInsert, hq]
      by_cases hq' : q.1 = k'
      · rw [hins]
        simp [alistGet?, List.find?, hq']
      · rw [hins]
        simp only [alistGet?, List.find?, hq', decide_eq_true_eq] at ih ⊢
        simpa [hq'] using ih

theorem alistHasKey_insert_self (k v : Str) : ∀ m : AList,
    alistHasKey (alistInsert m k v) k = true := by
  intro m
  induction m with
  | nil => simp [alistInsert, alistHasKey]
  | cons q rest ih =>
    by_cases hq : q.1 = k
    · simp [alistInsert, hq, alistHasKey]
    · simp only [alistInsert, if_neg hq, alistHasKey, List.any_cons] at ih ⊢
      simp [ih]

theorem alistHasKey_insert_mono (k v k' : Str) : ∀ m : AList,
    alistHasKey m k' = true → alistHasKey (alistInsert m k v) k' = true := by
  intro m
  induction m with
  | nil => intro h; simp [alistHasKey] at h
  | cons q rest ih =>
    intro h
    simp only [alistHasKey, List.any_cons, Bool.or_eq_true] at h
    by_cases hq : q.1 = k
    · simp only [alistInsert, if_pos hq, alistHasKey, List.any_cons, Bool.or_eq_true]
      rcases h with h | h
      · left; simp only [decide_eq_true_eq] at h ⊢; rw [← hq]; exact h
      · right; exact h
    · simp only [alistInsert, if_neg hq, alistHasKey, List.any_cons, Bool.or_eq_true]
      rcases h with h | h
      · left; exact h
      · right; exact ih h

theorem alistHasKey_insert_other (k v k' : Str) (hne : k' ≠ k) : ∀ m : AList,
    alistHasKey (alistInsert m k v) k' = alistHasKey m k' := by
  intro m
  have hkk : ¬ (k = k') := fun h => hne h.symm
  induction m with
  | nil => simp [alistInsert, alistHasKey, hkk]
  | cons q rest ih =>
    by_cases hq : q.1 = k
    · have hq' : ¬ (q.1 = k') := by rw [hq]; exact hkk
      simp [alistInsert, hq, alistHasKey, hkk, hq']
    · simp only [alistInsert, if_neg hq, alistHasKey, List.any_cons] at ih ⊢
      rw [ih]

theorem alistHasKey_of_get?_some (m : AList) (k s : Str)
    (h : alistGet? m k = some s) : alistHasKey m k = true := by
  unfold alistGet? at h
  cases hf : m.find? (fun p => p.1 = k) with
  | none => rw [hf] at h; simp at h
  | some q =>
    have hq := List.find?_some hf
    have hmem := List.mem_of_find?_eq_some hf
    unfold alistHasKey
    simp only [List.any_eq_true]
    exact ⟨q, hmem, hq⟩

/-! ## Lemmas about the sentinel fill of the size maps -/

theorem fillMissing_hasKey_mono (names : List Str) :
    ∀ (m : AList) (sent n : Str), alistHasKey m n = true →
      alistHasKey (fillMissing m names sent) n = true := by
  induction names with
  | nil => intro m sent n h; simpa [fillMissing] using h
  | cons p ps ih =>
    intro m sent n h
    simp only [fillMissing, List.foldl_cons]
    by_cases hp : alistHasKey m p = true
    · simpa only [if_pos hp] using ih m sent n h
    · rw [if_neg hp]
      exact ih _ sent n (alistHasKey_insert_mono p sent n m h)

theorem fillMissing_hasKey (names : List Str) :
    ∀ (m : AList) (sent n : Str), n ∈ names →
      alistHasKey (fillMissing m names sent) n = true := by
  induction names with
  | nil => intro m sent n h; simp at h
  | cons p ps ih =>
    intro m sent n hmem
    simp only [fillMissing, List.foldl_cons]
    rcases List.mem_cons.1 hmem with rfl | hmem'
    · by_cases hp : alistHasKey m n = true
      · rw [if_pos hp]
        exact fillMissing_hasKey_mono ps m sent n hp
      · rw [if_neg hp]
        exact fillMissing_hasKey_mono ps _ sent n (alistHasKey_insert_self n sent m)
    · by_cases hp : alistHasKey m p = true
      · rw [if_pos hp]; exact ih m sent n hmem'
      · rw [if_neg hp]; exact ih _ sent n hmem'

theorem fillMissing_get_pres (names : List Str) :
    ∀ (m : AList) (sent n : Str), alistGet? m n = some sent →
      alistGet? (fillMissing m names sent) n = some sent := by
  induction names with
  | nil => intro m sent n h; simpa [fillMissing] using h
  | cons p ps ih =>
    intro m sent n h
    simp only [fillMissing, List.foldl_cons]
    by_cases hp : alistHasKey m p = true
    · rw [if_pos hp]; exact ih m sent n h
    · rw [if_neg hp]
      refine ih _ sent n ?_
      have hne : n ≠ p := by
        intro rfl_eq
        subst rfl_eq
        exact hp (alistHasKey_of_get?_some m n sent h)
      rw [alistGet?_insert_other p sent n hne m]
      exact h

theorem fillMissing_get_missing (names : List Str) :
    ∀ (m : AList) (sent n : Str), n ∈ names → alistHasKey m n = false →
      alistGet? (fillMissing m names sent) n = some sent := by
  induction names with
  | nil => intro m sent n h; simp at h
  | cons p ps ih =>
    intro m sent n hmem hmiss
    simp only [fillMissing, List.foldl_cons]
    rcases List.mem_cons.1 hmem with rfl | hmem'
    · rw [if_neg (by simp [hmiss])]
      exact fillMissing_get_pres ps _ sent n (alistGet?_insert_self n sent m)
    · by_cases hp : alistHasKey m p = true
      · rw [if_pos hp]; exact ih m sent n hmem' hmiss
      · rw [if_neg hp]
        by_cases hne : n = p
        · subst hne
          exact fillMissing_get_pres ps _ sent n (alistGet?_insert_self n sent m)
        · refine ih _ sent n hmem' ?_
          rw [alistHasKey_insert_other p sent n hne m]
          exact hmiss

/-! ## Lemmas about tokenisation and the upgradable-list parser -/

theorem splitWs_mem_ne_nil (l : Str) : ∀ t ∈ splitWs l, t ≠ [] := by
  intro t ht
  unfold splitWs at ht
  simpa using (List.mem_filter.1 ht).2

theorem enumFrom_snd_mem {α : Type} : ∀ (l : List α) (j : Nat) (p : Nat × α),
    p ∈ enumFrom j l → p.2 ∈ l := by
  intro l
  induction l with
  | nil => intro j p h; simp [enumFrom] at h
  | cons x xs ih =>
    intro j p h
    rcases List.mem_cons.1 h with rfl | h'
    · simp
    · exact List.mem_cons_of_mem x (ih (j + 1) p h')

/-- a record produced by `aptLineRecord` comes from a line with at least four
whitespace fields; its name is the first field up to `'/'` and its new
version is the second field. -/
theorem aptLineRecord_some (il : Nat × Str) (p₀ : PackageUpdate)
    (h : aptLineRecord il = some p₀) :
    ∃ p0 p1 ps, splitWs il.2 = p0 :: p1 :: ps
      ∧ p₀.name = headI (splitOnChar '/' p0) ∧ p₀.new_version = p1 := by
  unfold aptLineRecord at h
  by_cases hg : il.1 = 0 ∨ (trimStr il.2).isEmpty = true
  · rw [if_pos hg] at h; exact absurd h (by simp)
  · rw [if_neg hg] at h
    cases hsp : splitWs il.2 with
    | nil => rw [hsp] at h; exact absurd h (by simp)
    | cons p0 rest0 =>
      cases rest0 with
      | nil => rw [hsp] at h; exact absurd h (by simp)
      | cons p1 rest1 =>
        cases rest1 with
        | nil => rw [hsp] at h; exact absurd h (by simp)
        | cons p2 rest2 =>
          cases rest2 with
          | nil => rw [hsp] at h; exact absurd h (by simp)
          | cons p3 rest3 =>
            rw [hsp] at h
            simp only [Option.some.injEq] at h
            exact ⟨p0, p1, p2 :: p3 :: rest3, rfl, by rw [← h], by rw [← h]⟩

/-- the header guard: no record for the index-0 line or a blank line. -/
theorem aptLineRecord_skip (i : Nat) (line : Str)
    (h : i = 0 ∨ (trimStr line).isEmpty = true) :
    aptLineRecord (i, line) = none := by
  unfold aptLineRecord
  rw [if_pos (by simpa using h)]

theorem aptRecords_cons_indep (l0 l0' : Str) (ls : List Str) :
    aptRecords (l0 :: ls) = aptRecords (l0' :: ls) := by
  unfold aptRecords
  simp only [enumFrom, List.filterMap_cons,
    aptLineRecord_skip 0 l0 (Or.inl rfl), aptLineRecord_skip 0 l0' (Or.inl rfl)]

theorem parse_apt_lines_cons_indep (l0 l0' : Str) (ls : List Str)
    (aptShowOut aptCacheOut : Str) :
    parse_apt_lines (l0 :: ls) aptShowOut aptCacheOut
      = parse_apt_lines (l0' :: ls) aptShowOut aptCacheOut := by
  unfold parse_apt_lines
  rw [aptRecords_cons_indep l0 l0' ls]

/-! ## Lemmas about the version comparator and the group sort -/

theorem intCmp_swap (a b : Int) : (intCmp a b).swap = intCmp b a := by
  unfold intCmp
  split_ifs <;> first | rfl | omega

theorem lexCmp_swap : ∀ a b : Str, (lexCmp a b).swap = lexCmp b a := by
  intro a
  induction a with
  | nil => intro b; cases b <;> rfl
  | cons x xs ih =>
    intro b
    cases b with
    | nil => rfl
    | cons y ys =>
      simp only [lexCmp]
      cases hc : intCmp x.toNat y.toNat with
      | eq =>
        have : intCmp y.toNat x.toNat = .eq := by
          rw [← intCmp_swap, hc]; rfl
        rw [this]
        exact ih ys
      | lt =>
        have : intCmp y.toNat x.toNat = .gt := by
          rw [← intCmp_swap, hc]; rfl
        rw [this]; rfl
      | gt =>
        have : intCmp y.toNat x.toNat = .lt := by
          rw [← intCmp_swap, hc]; rfl
        rw [this]; rfl

theorem partCmp_swap (a b : Str) : (partCmp a b).swap = partCmp b a := by
  unfold partCmp
  cases parseI32? a with
  | some x =>
    cases parseI32? b with
    | some y => exact intCmp_swap x y
    | none => exact lexCmp_swap a b
  | none =>
    cases parseI32? b with
    | some y => exact lexCmp_swap a b
    | none => exact lexCmp_swap a b

theorem vcTail_swap : ∀ l : List Str, (vcTailB l).swap = vcTailA l := by
  intro l
  induction l with
  | nil => rfl
  | cons b bs' ih =>
    simp only [vcTailA, vcTailB]
    cases hc : partCmp "0".data b with
    | eq =>
      have : partCmp b "0".data = .eq := by rw [← partCmp_swap, hc]; rfl
      rw [this]; exact ih
    | lt =>
      have : partCmp b "0".data = .gt := by rw [← partCmp_swap, hc]; rfl
      rw [this]; rfl
    | gt =>
      have : partCmp b "0".data = .lt := by rw [← partCmp_swap, hc]; rfl
      rw [this]; rfl

theorem vcAux_swap_nil : ∀ bs, (vcAux [] bs).swap = vcAux bs [] := by
  intro bs
  cases bs with
  | nil => rfl
  | cons b bs' =>
    simp only [vcAux, vcTailB]
    cases hc : partCmp "0".data b with
    | eq =>
      have : partCmp b "0".data = .eq := by rw [← partCmp_swap, hc]; rfl
      rw [this]; exact vcTail_swap bs'
    | lt =>
      have : partCmp b "0".data = .gt := by rw [← partCmp_swap, hc]; rfl
      rw [this]; rfl
    | gt =>
      have : partCmp b "0".data = .lt := by rw [← partCmp_swap, hc]; rfl
      rw [this]; rfl

theorem vcAux_swap : ∀ as' bs : List Str, (vcAux as' bs).swap = vcAux bs as' := by
  intro as'
  induction as' with
  | nil => exact vcAux_swap_nil
  | cons a at' ih =>
    intro bs
    cases bs with
    | nil =>
      rw [← vcAux_swap_nil (a :: at')]
      simp [Ordering.swap_swap]
    | cons b bt =>
      simp only [vcAux]
      cases hc : partCmp a b with
      | eq =>
        have : partCmp b a = .eq := by rw [← partCmp_swap, hc]; rfl
        rw [this]; exact ih bt
      | lt =>
        have : partCmp b a = .gt := by rw [← partCmp_swap, hc]; rfl
        rw [this]; rfl
      | gt =>
        have : partCmp b a = .lt := by rw [← partCmp_swap, hc]; rfl
        rw [this]; rfl

theorem version_compare_swap (a b : Str) :
    (version_compare a b).swap = version_compare b a := by
  unfold version_compare
  exact vcAux_swap _ _



theorem descOk_of_not_lt (x y : KernelInfo) (h : kernelDescCmp x y ≠ .lt) :
    DescOk y x := by
  unfold DescOk
  intro hc
  apply h
  unfold kernelDescCmp at hc ⊢
  rw [← version_compare_swap x.version y.version, hc]
  rfl

theorem insertSorted_chain (x : KernelInfo) :
    ∀ l, l.Chain' DescOk →
      (insertSorted kernelDescCmp x l).Chain' DescOk := by
  intro l
  induction l with
  | nil => intro _; simp [insertSorted]
  | cons y ys ih =>
    intro h
    rw [insertSorted]
    by_cases hc : kernelDescCmp x y = .lt
    · rw [if_pos hc]
      exact List.Chain'.cons (by unfold DescOk; simp [hc]) h
    · rw [if_neg hc]
      obtain ⟨h1, h2⟩ := List.chain'_cons'.1 h
      refine List.chain'_cons'.2 ⟨?_, ih h2⟩
      intro b hb
      cases ys with
      | nil =>
        simp only [insertSorted, List.head?_cons, Option.mem_def,
          Option.some.injEq] at hb
        subst hb
        exact descOk_of_not_lt x y hc
      | cons z zs =>
        rw [insertSorted] at hb
        by_cases hcz : kernelDescCmp x z = .lt
        · rw [if_pos hcz] at hb
          simp only [List.head?_cons, Option.mem_def, Option.some.injEq] at hb
          subst hb
          exact descOk_of_not_lt x y hc
        · rw [if_neg hcz] at hb
          simp only [List.head?_cons, Option.mem_def, Option.some.injEq] at hb
          subst hb
          exact h1 z rfl

theorem sortByCmp_chain : ∀ (l acc : List KernelInfo), acc.Chain' DescOk →
    (l.foldl (fun acc x => insertSorted kernelDescCmp x acc) acc).Chain' DescOk := by
  intro l
  induction l with
  | nil => intro acc h; simpa using h
  | cons x xs ih =>
    intro acc h
    simp only [List.foldl_cons]
    exact ih _ (insertSorted_chain x acc h)

theorem group_sorted (ks : List KernelInfo) :
    ∀ g ∈ group_kernels_by_major_version ks, g.2.Chain' DescOk := by
  intro g hg
  unfold group_kernels_by_major_version at hg
  obtain ⟨g₀, _, rfl⟩ := List.mem_map.1 hg
  exact sortByCmp_chain g₀.2 [] (by simp)

/-! ## Invariants of the kernel enumeration -/



theorem clean_noSlash (v : Str) : noSlash (headI (splitOnChar '/' v)) := by
  intro c hc
  have := headI_splitOnP_no_sep (fun c => c = '/') v c hc
  simpa using this

theorem clean_eq_of_noSlash (v : Str) (h : noSlash v) :
    headI (splitOnChar '/' v) = v := by
  unfold splitOnChar
  exact headI_splitOnP_eq_self _ v (by intro c hc; simpa using h c hc)

theorem extract_some_decomp (pkg kv : Str)
    (h : extract_kernel_version_from_package pkg = some kv) :
    pkg = "linux-image-".data ++ kv := by
  unfold extract_kernel_version_from_package at h
  by_cases hp : "linux-image-".data.isPrefixOf pkg = true
  · rw [if_pos hp] at h
    have hdec := isPrefixOf_append_drop "linux-image-".data pkg hp
    cases hd : pkg.drop "linux-image-".data.length with
    | nil => rw [hd] at h; simp at h
    | cons c rest =>
      rw [hd] at h
      by_cases hc : c.isDigit = true
      · simp only [hc, if_true, Option.some.injEq] at h
        rw [hdec, hd, h]
      · simp [hc] at h
  · rw [if_neg hp] at h; simp at h

theorem contains_clean_imp (pkg kv pat : Str)
    (hdec : pkg = "linux-image-".data ++ kv)
    (h : containsSub (headI (splitOnChar '/' kv)) pat = true) :
    containsSub pkg pat = true := by
  obtain ⟨t, ht⟩ := headI_splitOnP_append (fun c => c = '/') kv
  rw [hdec]
  apply containsSub_append_left
  rw [ht]
  exact containsSub_append_right _ _ _ h

/-- the cleaned extracted version inherits all three suffix-freedom facts
from the package-name filter. -/
theorem noBad_of_scan (pkg kv : Str)
    (hext : extract_kernel_version_from_package pkg = some kv)
    (hu : ¬ containsSub pkg "-unsigned".data = true)
    (hd : ¬ containsSub pkg "-dbg".data = true)
    (hh : ¬ containsSub pkg "-headers".data = true) :
    noBadSuffix (headI (splitOnChar '/' kv)) := by
  have hdec := extract_some_decomp pkg kv hext
  refine ⟨?_, ?_, ?_⟩
  · cases hcu : containsSub (headI (splitOnChar '/' kv)) "-unsigned".data
    · rfl
    · exact absurd (contains_clean_imp pkg kv _ hdec hcu) hu
  · cases hcd : containsSub (headI (splitOnChar '/' kv)) "-dbg".data
    · rfl
    · exact absurd (contains_clean_imp pkg kv _ hdec hcd) hd
  · cases hch : containsSub (headI (splitOnChar '/' kv)) "-headers".data
    · rfl
    · exact absurd (contains_clean_imp pkg kv _ hdec hch) hh

/-- pushing a fresh version onto a scan state preserves the invariant. -/
theorem scanInv_push (cur : Str) (st : List Str × List KernelInfo)
    (k : KernelInfo) (h : ScanInv cur st) (hnotin : k.version ∉ st.1)
    (hcur : k.is_current = decide (headI (splitOnChar '/' cur) = k.version))
    (hns : noSlash k.version) (hnb : noBadSuffix k.version) :
    ScanInv cur (k.version :: st.1, st.2 ++ [k]) := by
  obtain ⟨hseen, ⟨hpw, hok⟩, hbad⟩ := h
  refine ⟨?_, ⟨?_, ?_⟩, ?_⟩
  · intro k' hk'
    rcases List.mem_append.1 hk' with hold | hnew
    · exact List.mem_cons_of_mem _ (hseen k' hold)
    · rcases List.mem_singleton.1 hnew with rfl
      exact List.mem_cons_self _ _
  · rw [List.pairwise_append]
    refine ⟨hpw, List.pairwise_singleton _ _, ?_⟩
    intro a ha b hb
    rcases List.mem_singleton.1 hb with rfl
    intro heq
    exact hnotin (heq ▸ hseen a ha)
  · intro k' hk'
    rcases List.mem_append.1 hk' with hold | hnew
    · exact hok k' hold
    · rcases List.mem_singleton.1 hnew with rfl
      exact ⟨hcur, hns⟩
  · intro k' hk'
    rcases List.mem_append.1 hk' with hold | hnew
    · exact hbad k' hold
    · rcases List.mem_singleton.1 hnew with rfl
      exact hnb

/-- a fold preserves an invariant preserved by each step. -/
theorem foldl_pres {σ α : Type} (Inv : σ → Prop) (f : σ → α → σ)
    (hstep : ∀ st x, Inv st → Inv (f st x)) :
    ∀ (xs : List α) (st : σ), Inv st → Inv (xs.foldl f st) := by
  intro xs
  induction xs with
  | nil => intro st h; simpa using h
  | cons x xs' ih =>
    intro st h
    simp only [List.foldl_cons]
    exact ih _ (hstep st x h)

/-- a fold over elements all satisfying `P` preserves an invariant whose
steps need `P`. -/
theorem foldl_pres_mem {σ α : Type} (Inv : σ → Prop) (f : σ → α → σ)
    (P : α → Prop) :
    ∀ (xs : List α), (∀ x ∈ xs, P x) →
      (∀ st x, P x → Inv st → Inv (f st x)) →
      ∀ st : σ, Inv st → Inv (xs.foldl f st) := by
  intro xs
  induction xs with
  | nil => intro _ _ st h; simpa using h
  | cons x xs' ih =>
    intro hall hstep st h
    simp only [List.foldl_cons]
    exact ih (fun y hy => hall y (List.mem_cons_of_mem x hy)) hstep _
      (hstep st x (hall x (List.mem_cons_self x xs')) h)

theorem installedStep_pres (cur : Str) (st : List Str × List KernelInfo)
    (line : Str) (h : ScanInv cur st) :
    ScanInv cur (installedStep cur st line) := by
  unfold installedStep
  repeat' split
  all_goals try exact h
  rename_i hcond l0 a pkg b t hsp hfil x kv hext
  dsimp only [KernelInfo.new]
  split
  · exact h
  · rename_i hnotin
    exact scanInv_push cur st _ h hnotin rfl (clean_noSlash kv)
      (noBad_of_scan pkg kv hext (fun hu => hfil (Or.inl hu))
        (fun hd => hfil (Or.inr (Or.inl hd)))
        (fun hh => hfil (Or.inr (Or.inr hh))))

theorem availStep_pres (cur : Str) (inst : List KernelInfo)
    (st : List Str × List KernelInfo) (line : Str) (h : ScanInv cur st) :
    ScanInv cur (availStep cur inst st line) := by
  unfold availStep
  repeat' split
  all_goals try exact h
  rename_i hcond pkgPart t hsp
  dsimp only
  split
  · rename_i kv hext
    split
    · exact h
    · rename_i hfil
      dsimp only [KernelInfo.new]
      split
      · exact h
      · rename_i hnotin
        exact scanInv_push cur st _ h hnotin rfl (clean_noSlash kv)
          (noBad_of_scan _ kv hext (fun hu => hfil (Or.inl hu))
            (fun hd => hfil (Or.inr (Or.inl hd)))
            (fun hh => hfil (Or.inr (Or.inr hh))))
  · exact h

theorem ensureCurrent_KListOk (cur : Str) (ks : List KernelInfo)
    (h : KListOk cur ks) : KListOk cur (ensureCurrent cur ks) := by
  unfold ensureCurrent
  split
  · dsimp only
    split
    · exact h
    · rename_i hne hany
      obtain ⟨hpw, hok⟩ := h
      have hnotany : ∀ k ∈ ks,
          ¬ (k.is_current = true ∨ k.version = headI (splitOnChar '/' cur)) := by
        intro k hk hor
        apply hany
        exact List.any_eq_true.2 ⟨k, hk, decide_eq_true hor⟩
      constructor
      · rw [List.pairwise_append]
        refine ⟨hpw, List.pairwise_singleton _ _, ?_⟩
        intro a ha b hb
        rcases List.mem_singleton.1 hb with rfl
        intro heq
        exact hnotany a ha (Or.inr heq)
      · intro k hk
        rcases List.mem_append.1 hk with hold | hnew
        · exact hok k hold
        · rcases List.mem_singleton.1 hnew with rfl
          exact ⟨by simp [KernelInfo.new], by
            simpa [KernelInfo.new] using clean_noSlash cur⟩
  · exact h

theorem ensureCurrent_noBad (cur : Str) (ks : List KernelInfo)
    (hb : KListNoBad ks)
    (hcur : noBadSuffix (headI (splitOnChar '/' cur))) :
    KListNoBad (ensureCurrent cur ks) := by
  unfold ensureCurrent
  split
  · dsimp only
    split
    · exact hb
    · intro k hk
      rcases List.mem_append.1 hk with hold | hnew
      · exact hb k hold
      · rcases List.mem_singleton.1 hnew with rfl
        simpa [KernelInfo.new] using hcur
  · exact hb

theorem ensureCurrent_current (cur : Str) (ks : List KernelInfo)
    (hne : cur ≠ []) (hok : ∀ k ∈ ks, KOk cur k) :
    ∃ k ∈ ensureCurrent cur ks, k.is_current = true := by
  unfold ensureCurrent
  rw [if_pos hne]
  dsimp only
  by_cases hany : ks.any
      (fun k => decide (k.is_current = true ∨
        k.version = headI (splitOnChar '/' cur))) = true
  · rw [if_pos hany]
    obtain ⟨k, hk, hcond⟩ := List.any_eq_true.1 hany
    rcases of_decide_eq_true hcond with hc | hv
    · exact ⟨k, hk, hc⟩
    · refine ⟨k, hk, ?_⟩
      rw [(hok k hk).1, hv]
      simp
  · rw [if_neg hany]
    exact ⟨_, List.mem_append_right _ (List.mem_singleton_self _), rfl⟩

theorem mergeStep_KListOk (cur : Str) (ks : List KernelInfo) (ik : KernelInfo)
    (h : KListOk cur ks) (hik : KOk cur ik) :
    KListOk cur (mergeInstalledStep ks ik) := by
  unfold mergeInstalledStep
  split
  · exact h
  · dsimp only
    split
    · exact h
    · rename_i hfil hany
      obtain ⟨hpw, hok⟩ := h
      have hic : headI (splitOnChar '/' ik.version) = ik.version :=
        clean_eq_of_noSlash _ hik.2
      have hnotany : ∀ k ∈ ks, ¬ (k.package_name = ik.package_name
          ∨ k.version = headI (splitOnChar '/' ik.version)) := by
        intro k hk hor
        apply hany
        exact List.any_eq_true.2 ⟨k, hk, decide_eq_true hor⟩
      constructor
      · rw [List.pairwise_append]
        refine ⟨hpw, List.pairwise_singleton _ _, ?_⟩
        intro a ha b hb
        rcases List.mem_singleton.1 hb with rfl
        intro heq
        exact hnotany a ha (Or.inr heq)
      · intro k hk
        rcases List.mem_append.1 hk with hold | hnew
        · exact hok k hold
        · rcases List.mem_singleton.1 hnew with rfl
          refine ⟨?_, ?_⟩
          · dsimp only
            rw [hik.1, hic]
          · exact clean_noSlash ik.version

theorem mergeStep_noBad (ks : List KernelInfo) (ik : KernelInfo)
    (hb : KListNoBad ks) (hik : noBadSuffix ik.version) (hiks : noSlash ik.version) :
    KListNoBad (mergeInstalledStep ks ik) := by
  unfold mergeInstalledStep
  split
  · exact hb
  · dsimp only
    split
    · exact hb
    · intro k hk
      rcases List.mem_append.1 hk with hold | hnew
      · exact hb k hold
      · rcases List.mem_singleton.1 hnew with rfl
        show noBadSuffix (headI (splitOnChar '/' ik.version))
        rw [clean_eq_of_noSlash _ hiks]
        exact hik

theorem mergeStep_mem (ks : List KernelInfo) (ik k : KernelInfo)
    (hk : k ∈ ks) : k ∈ mergeInstalledStep ks ik := by
  unfold mergeInstalledStep
  split
  · exact hk
  · dsimp only
    split
    · exact hk
    · exact List.mem_append_left _ hk

theorem mem_foldl_merge (k : KernelInfo) :
    ∀ (l ks : List KernelInfo), k ∈ ks →
      k ∈ l.foldl mergeInstalledStep ks := by
  intro l
  induction l with
  | nil => intro ks hk; simpa using hk
  | cons x xs ih =>
    intro ks hk
    simp only [List.foldl_cons]
    exact ih _ (mergeStep_mem ks x k hk)

theorem scanInv_nil (cur : Str) : ScanInv cur ([], []) := by
  refine ⟨?_, ⟨?_, ?_⟩, ?_⟩ <;> simp [KListNoBad]

theorem installed_inv (d cur : Str) :
    ScanInv cur ((rustLines d).foldl (installedStep cur) ([], [])) :=
  foldl_pres (ScanInv cur) (installedStep cur)
    (fun st x h => installedStep_pres cur st x h) (rustLines d) ([], [])
    (scanInv_nil cur)

theorem installed_KListOk (d cur : Str) :
    KListOk cur (get_installed_kernels d cur) :=
  (installed_inv d cur).2.1

theorem installed_noBad (d cur : Str) :
    KListNoBad (get_installed_kernels d cur) :=
  (installed_inv d cur).2.2

theorem avail_scan_inv (a d cur : Str) :
    ScanInv cur ((rustLines a).foldl
      (availStep cur (get_installed_kernels d cur)) ([], [])) :=
  foldl_pres (ScanInv cur) (availStep cur (get_installed_kernels d cur))
    (fun st x h => availStep_pres cur _ st x h) (rustLines a) ([], [])
    (scanInv_nil cur)

theorem available_KListOk (a d cur : Str) :
    KListOk cur (get_available_kernels a d cur) := by
  unfold get_available_kernels
  exact foldl_pres_mem (KListOk cur) mergeInstalledStep (KOk cur)
    (get_installed_kernels d cur)
    ((installed_KListOk d cur).2)
    (fun st x hx hst => mergeStep_KListOk cur st x hst hx)
    _ (ensureCurrent_KListOk cur _ ((avail_scan_inv a d cur).2.1))

theorem available_noBad (a d cur : Str)
    (hcur : noBadSuffix (headI (splitOnChar '/' cur))) :
    KListNoBad (get_available_kernels a d cur) := by
  unfold get_available_kernels
  exact foldl_pres_mem KListNoBad mergeInstalledStep
    (fun k => noBadSuffix k.version ∧ noSlash k.version)
    (get_installed_kernels d cur)
    (fun k hk => ⟨installed_noBad d cur k hk,
      ((installed_KListOk d cur).2 k hk).2⟩)
    (fun st x hx hst => mergeStep_noBad st x hst hx.1 hx.2)
    _ (ensureCurrent_noBad cur _ ((avail_scan_inv a d cur).2.2) hcur)

theorem available_current (a d cur : Str) (hne : cur ≠ []) :
    ∃ k ∈ get_available_kernels a d cur, k.is_current = true := by
  unfold get_available_kernels
  obtain ⟨k, hk, hc⟩ := ensureCurrent_current cur
    ((rustLines a).foldl
      (availStep cur (get_installed_kernels d cur)) ([], [])).2 hne
    ((avail_scan_inv a d cur).2.1).2
  exact ⟨k, mem_foldl_merge k (get_installed_kernels d cur) _ hk, hc⟩

/-- exact-version distinctness plus the `is_current` characterisation bound
the number of current-flagged records by one. -/
theorem filter_current_le_one (cur : Str) : ∀ ks : List KernelInfo,
    KListOk cur ks → (ks.filter (fun k => k.is_current)).length ≤ 1 := by
  intro ks
  induction ks with
  | nil => intro _; simp
  | cons k ks' ih =>
    intro h
    obtain ⟨hpw, hok⟩ := h
    have hpw' := List.pairwise_cons.1 hpw
    by_cases hc : k.is_current = true
    · rw [List.filter_cons_of_pos (by simpa using hc)]
      have hkv : headI (splitOnChar '/' cur) = k.version := by
        have h1 := (hok k (List.mem_cons_self _ _)).1
        rw [hc] at h1
        exact of_decide_eq_true h1.symm
      have hnone : ks'.filter (fun k => k.is_current) = [] := by
        refine List.filter_eq_nil_iff.2 ?_
        intro b hb
        simp only [Bool.not_eq_true]
        cases hbc : b.is_current
        · rfl
        · exfalso
          have h2 := (hok b (List.mem_cons_of_mem _ hb)).1
          rw [hbc] at h2
          have hbv := of_decide_eq_true h2.symm
          exact hpw'.1 b hb (by rw [← hkv, ← hbv])
      rw [hnone]
      simp
    · rw [List.filter_cons_of_neg (by simpa using hc)]
      exact ih ⟨hpw'.2, fun b hb => hok b (List.mem_cons_of_mem _ hb)⟩

/-- a current-flagged record always matches the running kernel under the
code's own `kernels_match` normalization. -/
theorem kernels_match_of_current (cur : Str) (k : KernelInfo)
    (hok : KOk cur k) (hc : k.is_current = true) :
    kernels_match cur k.version = true := by
  have hv : headI (splitOnChar '/' cur) = k.version := by
    have h1 := hok.1
    rw [hc] at h1
    exact of_decide_eq_true h1.symm
  have h2 : headI (splitOnChar '/' k.version) = k.version :=
    clean_eq_of_noSlash _ hok.2
  unfold kernels_match
  by_cases he : cur = k.version
  · rw [if_pos he]
  · rw [if_neg he]
    dsimp only
    rw [hv, h2, if_pos rfl]

theorem pairwise_norm_of (ks : List KernelInfo)
    (h : ks.Pairwise (fun a b => a.version ≠ b.version))
    (hall : ∀ k ∈ ks, spec_normalized_version k.version = k.version) :
    ks.Pairwise (fun a b =>
      spec_normalized_version a.version ≠ spec_normalized_version b.version) := by
  refine List.Pairwise.imp_of_mem ?_ h
  intro a b ha hb hne heq
  rw [hall a ha, hall b hb] at heq
  exact hne heq

/-! ## Support lemmas for the driver-detector and parser claims -/

theorem mem_foldl_append {α β : Type} (g : α → β) :
    ∀ (l : List α) (start : List β) (d : β),
      d ∈ l.foldl (fun ds x => ds ++ [g x]) start →
      d ∈ start ∨ ∃ x ∈ l, d = g x := by
  intro l
  induction l with
  | nil => intro start d h; exact Or.inl (by simpa using h)
  | cons x xs ih =>
    intro start d h
    simp only [List.foldl_cons] at h
    rcases ih (start ++ [g x]) d h with hs | ⟨y, hy, rfl⟩
    · rcases List.mem_append.1 hs with hs' | hs''
      · exact Or.inl hs'
      · rcases List.mem_singleton.1 hs'' with rfl
        exact Or.inr ⟨x, List.mem_cons_self _ _, rfl⟩
    · exact Or.inr ⟨y, List.mem_cons_of_mem _ hy, rfl⟩

/-- the audio detector's `consistent_active` policy: a record can only be
active when its package was found installed, so active implies installed. -/
theorem audioRecord_inv (installed : AList) (p1 p2 a : Bool)
    (pdl : String × String × DriverLicense)
    (hact : (audioDriverRecord installed p1 p2 a pdl).is_active = true) :
    (audioDriverRecord installed p1 p2 a pdl).is_installed = true := by
  unfold audioDriverRecord at hact ⊢
  dsimp only at hact ⊢
  split at hact
  · rename_i hPI
    exact decide_eq_true (Or.inl hPI)
  · simp at hact

theorem detect_audio_inv (installed : AList) (p1 p2 a : Bool) :
    ∀ d ∈ detect_audio_drivers installed p1 p2 a,
      d.is_active = true → d.is_installed = true := by
  intro d hd hact
  unfold detect_audio_drivers at hd
  rcases mem_foldl_append _ _ _ _ hd with hstart | ⟨x, _, rfl⟩
  · simp at hstart
  · exact audioRecord_inv installed p1 p2 a x hact

/-! ## The claims -/

/-- C1: whenever the target package's extracted kernel version matches the
running kernel under the code's normalization (exact equality, or equality
after dropping the `'/'`-suffixed repository segment, or after stripping
`-unsigned`/`-dbg`), `remove_kernel_with_autoremove` returns the
current-kernel-protected error and issues zero removal commands. -/
theorem C1_running_kernel_never_removed
    (package_name current_kernel dpkgOut kv : Str)
    (hext : extract_kernel_version_from_package package_name = some kv)
    (hmatch : kernels_match current_kernel kv = true) :
    remove_kernel_with_autoremove package_name current_kernel dpkgOut
      = (.error currentKernelErr, []) := by
  unfold remove_kernel_with_autoremove
  simp only [hext, hmatch, if_true]

/-- C1 witness: the guard fires for `linux-image-6.1.0-13-amd64` when the
running kernel is `6.1.0-13-amd64/stable` (repository-segment match). -/
theorem C1_witness :
    remove_kernel_with_autoremove "linux-image-6.1.0-13-amd64".data
      "6.1.0-13-amd64/stable".data [] = (.error currentKernelErr, []) :=
  C1_running_kernel_never_removed _ _ _ "6.1.0-13-amd64".data
    (by decide) (by decide)

/-- C2 counterexample: with the advanced submenu listing the recovery entry
first, the synthesizer emits the recovery entry — refuting "selecting only
entries that do not mention recovery". -/
theorem C2_counterexample :
    set_default_kernel_entry false (some c2_cfg_recovery)
        "Debian GNU/Linux".data "6.1.0-13-amd64".data
      = ("Advanced options for Debian GNU/Linux>"
         ++ "Debian GNU/Linux, with Linux 6.1.0-13-amd64 (recovery mode)").data
    ∧ containsSub (set_default_kernel_entry false (some c2_cfg_recovery)
        "Debian GNU/Linux".data "6.1.0-13-amd64".data) "recovery".data
      = true := by
  constructor
  · decide
  · decide

/-- C2 amended: the primary scan emits `"<submenu-title>><entry-title>"` for
the first menuentry line in the advanced-options scope containing the target
version, with no recovery exclusion (only the fallback scan excludes
recovery); for the claim's Debian example the stated string is produced. -/
theorem C2_grub_entry_synthesis :
    set_default_kernel_entry false (some c2_cfg) "Debian GNU/Linux".data
        "6.1.0-13-amd64".data
      = ("Advanced options for Debian GNU/Linux>"
         ++ "Debian GNU/Linux, with Linux 6.1.0-13-amd64").data
    ∧ set_default_kernel_entry false (some c2_cfg_recovery)
        "Debian GNU/Linux".data "6.1.0-13-amd64".data
      = ("Advanced options for Debian GNU/Linux>"
         ++ "Debian GNU/Linux, with Linux 6.1.0-13-amd64 (recovery mode)").data := by
  constructor
  · decide
  · decide

/-- C3 counterexample: a full detection pass on a machine with no PCI
devices, an active bluetooth service and an empty installed-package map
returns a record with `is_active = true` and `is_installed = false`
(the bluetooth detector computes `is_active` from the service probe alone). -/
theorem C3_counterexample :
    ∃ d ∈ detect_drivers_no_pci [] [] false true false false "active".data,
      d.is_active = true ∧ d.is_installed = false := by
  decide

/-- C3 amended: `is_active ⟹ is_installed` holds for every record of the
audio detector (its `consistent_active` policy), but not for the pass as a
whole: the bluetooth — and likewise the Realtek/Broadcom WiFi — detectors
set `is_active` from the module/service probe alone and can mark a record
active but not installed. -/
theorem C3_audio_active_implies_installed (installed : AList)
    (pgrepPulse pgrepPipewire asoundExists : Bool) :
    ∀ d ∈ detect_audio_drivers installed pgrepPulse pgrepPipewire asoundExists,
      d.is_active = true → d.is_installed = true :=
  detect_audio_inv installed pgrepPulse pgrepPipewire asoundExists

/-- C3 witness: the active-and-installed pulseaudio record. -/
theorem C3_witness :
    ((detect_audio_drivers [("pulseaudio".data, "1.0".data)] true false true).getD
        1 ddflt).is_installed = true :=
  C3_audio_active_implies_installed [("pulseaudio".data, "1.0".data)]
    true false true
    ((detect_audio_drivers [("pulseaudio".data, "1.0".data)] true false
      true).getD 1 ddflt)
    (by decide) (by decide)

/-- C4: in `get_available_kernels` at most one record is current; a current
record's version matches `uname -r` under the code's normalization
(`kernels_match`, which strips repository segments and `-unsigned`/`-dbg`);
and when the running-kernel string is non-empty a current record is always
present (synthesized from `uname -r` if absent from both scans). -/
theorem C4_current_kernel_invariants (aptSearchOut dpkgOut currentKernel : Str) :
    ((get_available_kernels aptSearchOut dpkgOut currentKernel).filter
        (fun k => k.is_current)).length ≤ 1
    ∧ (∀ k ∈ get_available_kernels aptSearchOut dpkgOut currentKernel,
        k.is_current = true →
          k.version = headI (splitOnChar '/' currentKernel)
          ∧ kernels_match currentKernel k.version = true)
    ∧ (currentKernel ≠ [] →
        ∃ k ∈ get_available_kernels aptSearchOut dpkgOut currentKernel,
          k.is_current = true) := by
  refine ⟨?_, ?_, ?_⟩
  · exact filter_current_le_one currentKernel _
      (available_KListOk aptSearchOut dpkgOut currentKernel)
  · intro k hk hc
    have hok := (available_KListOk aptSearchOut dpkgOut currentKernel).2 k hk
    refine ⟨?_, kernels_match_of_current currentKernel k hok hc⟩
    have h1 := hok.1
    rw [hc] at h1
    exact (of_decide_eq_true h1.symm).symm
  · exact available_current aptSearchOut dpkgOut currentKernel

/-- C4 witness: a concrete enumeration whose single record is current and
matches the running kernel. -/
theorem C4_witness :
    (∃ k ∈ get_available_kernels c4_apt [] "6.1.0-13-amd64".data,
      k.is_current = true)
    ∧ kernels_match "6.1.0-13-amd64".data
        ((get_available_kernels c4_apt [] "6.1.0-13-amd64".data).getD
          0 kdflt).version = true :=
  ⟨(C4_current_kernel_invariants c4_apt [] "6.1.0-13-amd64".data).2.2
      (by decide),
   ((C4_current_kernel_invariants c4_apt [] "6.1.0-13-amd64".data).2.1 _
      (by decide) (by decide)).2⟩

/-- C5 counterexample: when `uname -r` itself carries a `-dbg` marker, the
record synthesized from it shares its normalized version with a scanned
record — two records of one enumeration with equal normalized versions. -/
theorem C5_counterexample :
    (get_available_kernels c5_apt [] "6.1.0-dbg".data).length = 2
    ∧ ((get_available_kernels c5_apt [] "6.1.0-dbg".data).getD 0 kdflt).version
      ≠ ((get_available_kernels c5_apt [] "6.1.0-dbg".data).getD 1 kdflt).version
    ∧ spec_normalized_version
        (((get_available_kernels c5_apt [] "6.1.0-dbg".data).getD 0 kdflt).version)
      = spec_normalized_version
        (((get_available_kernels c5_apt [] "6.1.0-dbg".data).getD 1 kdflt).version) := by
  refine ⟨by decide, by decide, by decide⟩

/-- C5 amended: `get_installed_kernels` never returns two records with the
same normalized version; `get_available_kernels` never returns two records
with the same exact version, and never two with the same normalized version
provided the slash-cleaned running-kernel string carries no
`-unsigned`/`-dbg`/`-headers` marker (the `uname -r`-synthesized record is
the only source of suffix-carrying versions); re-running either enumeration
on the same command outputs yields the identical result (the functions are
pure in their inputs — there is no accumulating state). -/
theorem C5_deduplication (aptSearchOut dpkgOut currentKernel : Str) :
    (get_installed_kernels dpkgOut currentKernel).Pairwise
        (fun a b => spec_normalized_version a.version
          ≠ spec_normalized_version b.version)
    ∧ (get_available_kernels aptSearchOut dpkgOut currentKernel).Pairwise
        (fun a b => a.version ≠ b.version)
    ∧ (noBadSuffix (headI (splitOnChar '/' currentKernel)) →
        (get_available_kernels aptSearchOut dpkgOut currentKernel).Pairwise
          (fun a b => spec_normalized_version a.version
            ≠ spec_normalized_version b.version))
    ∧ get_installed_kernels dpkgOut currentKernel
      = get_installed_kernels dpkgOut currentKernel
    ∧ get_available_kernels aptSearchOut dpkgOut currentKernel
      = get_available_kernels aptSearchOut dpkgOut currentKernel := by
  refine ⟨?_, (available_KListOk aptSearchOut dpkgOut currentKernel).1,
    ?_, rfl, rfl⟩
  · apply pairwise_norm_of _ (installed_KListOk dpkgOut currentKernel).1
    intro k hk
    exact spec_normalized_eq_self _
      ((installed_KListOk dpkgOut currentKernel).2 k hk).2
      (installed_noBad dpkgOut currentKernel k hk)
  · intro hcur
    apply pairwise_norm_of _
      (available_KListOk aptSearchOut dpkgOut currentKernel).1
    intro k hk
    exact spec_normalized_eq_self _
      ((available_KListOk aptSearchOut dpkgOut currentKernel).2 k hk).2
      (available_noBad aptSearchOut dpkgOut currentKernel hcur k hk)

/-- C5 witness: with a suffix-free running kernel the normalized versions of
a concrete enumeration are pairwise distinct. -/
theorem C5_witness :
    (get_available_kernels c5_apt [] "6.1.0".data).Pairwise
      (fun a b => spec_normalized_version a.version
        ≠ spec_normalized_version b.version) :=
  (C5_deduplication c5_apt [] "6.1.0".data).2.2.1 (by decide)

/-- C6: the comparator orders `6.12.1` above `6.9.5` (numeric, not
lexicographic), pads the shorter string with implicit zero components,
compares non-numeric components lexicographically, and every group produced
by `group_kernels_by_major_version` is sorted descending (newest first) by
it. -/
theorem C6_version_ordering (ks : List KernelInfo) :
    version_compare "6.12.1".data "6.9.5".data = .gt
    ∧ version_compare "6.1".data "6.1.0".data = .eq
    ∧ version_compare "10".data "9".data = .gt
    ∧ version_compare "6.1.0-amd64".data "6.1.0-amd63".data = .gt
    ∧ ∀ g ∈ group_kernels_by_major_version ks,
        g.2.Chain' (fun a b => version_compare a.version b.version ≠ .lt) := by
  refine ⟨by decide, by decide, by decide, by decide, ?_⟩
  intro g hg
  refine (group_sorted ks g hg).imp ?_
  intro a b hab hlt
  apply hab
  unfold kernelDescCmp
  rw [← version_compare_swap a.version b.version, hlt]
  rfl

/-- C6 witness: the 6.1 group of a concrete kernel list is sorted
descending. -/
theorem C6_witness :
    ((group_kernels_by_major_version c6_ks).getD 0 ([], [])).2.Chain'
      (fun a b => version_compare a.version b.version ≠ .lt) :=
  (C6_version_ordering c6_ks).2.2.2.2 _ (by decide)

/-- C7 counterexample: `get_kernel_sizes` maps a package with no discovered
size to `"~50 MB"`, not to the `"N/A"` sentinel the claim states. -/
theorem C7_counterexample :
    alistGet? (get_kernel_sizes ["foo".data] []) "foo".data
      = some "~50 MB".data
    ∧ "~50 MB".data ≠ "N/A".data := by
  refine ⟨by decide, by decide⟩

/-- C7 amended: both size queries return a map containing every requested
package name; a package whose size was not discovered by the scans is mapped
to the explicit sentinel — `"N/A"` in `get_package_sizes`, `"~50 MB"` in
`get_kernel_sizes`. -/
theorem C7_size_map_total (package_names : List Str)
    (aptShowOut aptCacheOut : Str) :
    (∀ n ∈ package_names,
        alistHasKey (get_package_sizes package_names aptShowOut aptCacheOut) n
          = true)
    ∧ (∀ n ∈ package_names,
        alistHasKey (scanned_package_sizes package_names aptShowOut aptCacheOut)
            n = false →
        alistGet? (get_package_sizes package_names aptShowOut aptCacheOut) n
          = some "N/A".data)
    ∧ (∀ n ∈ package_names,
        alistHasKey (get_kernel_sizes package_names aptShowOut) n = true)
    ∧ (∀ n ∈ package_names,
        alistHasKey (scanned_kernel_sizes aptShowOut) n = false →
        alistGet? (get_kernel_sizes package_names aptShowOut) n
          = some "~50 MB".data) := by
  refine ⟨?_, ?_, ?_, ?_⟩
  · intro n hn
    unfold get_package_sizes
    rw [if_neg (List.ne_nil_of_mem hn)]
    exact fillMissing_hasKey package_names _ _ n hn
  · intro n hn hmiss
    unfold get_package_sizes
    rw [if_neg (List.ne_nil_of_mem hn)]
    exact fillMissing_get_missing package_names _ _ n hn hmiss
  · intro n hn
    unfold get_kernel_sizes
    rw [if_neg (List.ne_nil_of_mem hn)]
    exact fillMissing_hasKey package_names _ _ n hn
  · intro n hn hmiss
    unfold get_kernel_sizes
    rw [if_neg (List.ne_nil_of_mem hn)]
    exact fillMissing_get_missing package_names _ _ n hn hmiss

/-- C7 witness: a name absent from empty command output is present and
mapped to `"N/A"`. -/
theorem C7_witness :
    alistHasKey (get_package_sizes ["bar".data] [] []) "bar".data = true
    ∧ alistGet? (get_package_sizes ["bar".data] [] []) "bar".data
      = some "N/A".data :=
  ⟨(C7_size_map_total ["bar".data] [] []).1 _ (by decide),
   (C7_size_map_total ["bar".data] [] []).2.1 _ (by decide) (by decide)⟩

/-- C8: the parser produces no record for the index-0 header line or for
blank lines, and — for inputs whose data lines are well-formed (first field
not beginning with `'/'`) — every record has a non-empty name and a
non-empty new version. -/
theorem C8_parser_wellformed (s aptShowOut aptCacheOut : Str) :
    (∀ (i : Nat) (line : Str), (i = 0 ∨ (trimStr line).isEmpty = true) →
        aptLineRecord (i, line) = none)
    ∧ ((∀ l ∈ rustLines s, wfAptLine l) →
        ∀ p ∈ parse_apt_list_output s aptShowOut aptCacheOut,
          p.name ≠ [] ∧ p.new_version ≠ []) := by
  constructor
  · exact aptLineRecord_skip
  · intro hwf p hp
    unfold parse_apt_list_output parse_apt_lines at hp
    obtain ⟨p₀, hp₀, hpe⟩ := List.mem_map.1 hp
    obtain ⟨il, hil, hrec⟩ := List.mem_filterMap.1 hp₀
    obtain ⟨p0, p1, ps, hsp, hname, hver⟩ := aptLineRecord_some il p₀ hrec
    have hl : il.2 ∈ rustLines s := enumFrom_snd_mem _ 0 il hil
    have hp0m : p0 ∈ splitWs il.2 := by rw [hsp]; exact List.mem_cons_self _ _
    have hp1m : p1 ∈ splitWs il.2 := by
      rw [hsp]; exact List.mem_cons_of_mem _ (List.mem_cons_self _ _)
    have hp0ne := splitWs_mem_ne_nil il.2 p0 hp0m
    have hp1ne := splitWs_mem_ne_nil il.2 p1 hp1m
    have hw := hwf il.2 hl
    unfold wfAptLine at hw
    rw [hsp] at hw
    have hpn : p.name = p₀.name ∧ p.new_version = p₀.new_version := by
      rw [← hpe]; exact ⟨rfl, rfl⟩
    constructor
    · rw [hpn.1, hname]
      cases p0 with
      | nil => exact absurd rfl hp0ne
      | cons c p0' =>
        have hc : ¬ c = '/' := by
          intro hc'
          exact hw (by rw [hc']; rfl)
        unfold splitOnChar
        rw [headI_splitOnP_cons_not _ c p0' (by simpa using hc)]
        simp
    · rw [hpn.2, hver]
      exact hp1ne

/-- C8 witness: on the repository's own test sample every record has
non-empty name and version. -/
theorem C8_witness :
    ∀ p ∈ parse_apt_list_output c8_sample [] [],
      p.name ≠ [] ∧ p.new_version ≠ [] :=
  (C8_parser_wellformed c8_sample [] []).2 (by decide)

/-- C9: any package whose lowercased name starts with one of the kernel
keywords is classified `Kernel` regardless of repository — the kernel check
precedes the security checks. -/
theorem C9_kernel_precedence (package_name repository : Str)
    (h : ∃ k ∈ kernel_keywords, k.isPrefixOf (toLowerStr package_name) = true) :
    determine_update_type package_name repository = UpdateType.Kernel := by
  have hk : is_kernel_package package_name = true := by
    unfold is_kernel_package
    exact List.any_eq_true.2 h
  unfold determine_update_type
  rw [if_pos hk]

/-- C9 witness: a kernel image in a security repository is still `Kernel`. -/
theorem C9_witness :
    determine_update_type "Linux-Image-6.1.0-13-amd64".data
      "bookworm-security".data = UpdateType.Kernel :=
  C9_kernel_precedence _ _ (by decide)

/-- C10 counterexample: an input whose first line is a well-formed package
line and whose second line repeats it — the first line's package (`bash`)
is present in the result, refuting "that first package is absent". -/
theorem C10_counterexample :
    wfAptLine c10_line
    ∧ (aptLineRecord (1, c10_line)).isSome = true
    ∧ "bash".data ∈ (parse_apt_list_output c10_text [] []).map
        (fun p => p.name) := by
  refine ⟨by decide, by decide, by decide⟩

/-- C10 amended: the first line is dropped unconditionally by position — the
parse result does not depend on the first line's content at all; in
particular the first line's package is absent whenever its name is not also
produced by a later line. -/
theorem C10_first_line_positional (l0 l0' : Str) (ls : List Str)
    (aptShowOut aptCacheOut : Str) :
    parse_apt_lines (l0 :: ls) aptShowOut aptCacheOut
      = parse_apt_lines (l0' :: ls) aptShowOut aptCacheOut
    ∧ (∀ n : Str,
        n ∉ (parse_apt_lines (l0' :: ls) aptShowOut aptCacheOut).map
            (fun p => p.name) →
        n ∉ (parse_apt_lines (l0 :: ls) aptShowOut aptCacheOut).map
            (fun p => p.name)) := by
  refine ⟨parse_apt_lines_cons_indep l0 l0' ls _ _, ?_⟩
  intro n hn
  rw [parse_apt_lines_cons_indep l0 l0' ls]
  exact hn

/-- C10 witness: with no later `bash` line, the well-formed first line's
package is absent. -/
theorem C10_witness :
    "bash".data ∉ (parse_apt_lines
        (c10_line :: ["other/x 1 amd64 [upgradable from: 0]".data]) [] []).map
      (fun p => p.name) :=
  (C10_first_line_positional c10_line "Listing...".data
      ["other/x 1 amd64 [upgradable from: 0]".data] [] []).2
    "bash".data (by decide)

end Meaupdater
